import Mathlib

/-!
# Verification of the batched enrichment pipeline of `ai-sheet-automation`

Shallow embedding of the core row-processing pipeline of the repository's
`backend/` (src: `process_steps.py`, `sheet_utils.py`, `routes.py`,
`websocket_manager.py`) together with proofs and refutations of the frozen
claims about it.

Conventions of the embedding:
* Python `str` is embedded as `String` / `List Char`; cell values are strings.
* Python `re.sub` with the concrete non-greedy patterns used by
  `clean_ai_data_response` is embedded by an explicit leftmost-shortest
  scanner (`subRF`) driven by one matcher per pattern.  The scanner carries
  explicit fuel (`s.length` steps always suffice) so that every definition
  reduces in the kernel.
* Python `float` is embedded as `ℚ`: every numeric string the code parses
  is a short decimal literal, where the two agree on sign, positivity and
  two-decimal formatting (IEEE-754 rounding of huge or >15-digit literals is
  not modelled).
* The external LLM clients (`genai`, `AsyncOpenAI`) are embedded as an
  oracle `api : Nat → ApiResult` giving the outcome of the one call a task
  with a given row index performs.
* `asyncio.gather` over a wave is embedded as a sequential fold over the
  wave's jobs: every per-task effect (row write, counter update, progress
  emission) happens atomically under `progress_lock` in the source, and no
  claim below depends on the interleaving order inside a wave.
-/

/-! ## Basic character and string helpers (Python `str` semantics) -/

/-- The whitespace characters stripped by Python's `str.strip()` /
matched by `\s` (ASCII range, as produced by the spreadsheet adapter). -/
def isPyWs (c : Char) : Bool :=
  c = ' ' || c = '\t' || c = '\n' || c = '\r' || c = '\x0b' || c = '\x0c'

/-- Python `str.strip()` on a character list. -/
def pyStripL (l : List Char) : List Char :=
  ((l.dropWhile isPyWs).reverse.dropWhile isPyWs).reverse

/-- Python `str.strip()`. -/
def pyStrip (s : String) : String := ⟨pyStripL s.data⟩

/-- Python `str.lower()` (ASCII case folding). -/
def pyLowerL (l : List Char) : List Char := l.map Char.toLower

/-- Python `str.lower()`. -/
def pyLower (s : String) : String := ⟨pyLowerL s.data⟩

/-- Python `str.upper()`. -/
def pyUpper (s : String) : String := ⟨s.data.map Char.toUpper⟩

/-- Does `l` start with `p` (exact characters)? -/
def hasPrefixL : List Char → List Char → Bool
  | [], _ => true
  | _ :: _, [] => false
  | p :: ps, c :: cs => p == c && hasPrefixL ps cs

/-- Does `l` start with `p`, comparing case-insensitively
(`p` is given in lowercase)? -/
def hasPrefixCI : List Char → List Char → Bool
  | [], _ => true
  | _ :: _, [] => false
  | p :: ps, c :: cs => p == c.toLower && hasPrefixCI ps cs

/-- Python `sub in s` (substring containment, exact characters). -/
def containsSubL (pat : List Char) : List Char → Bool
  | [] => pat.isEmpty
  | c :: cs => hasPrefixL pat (c :: cs) || containsSubL pat cs

/-- Suffix of `l` that follows the first occurrence of the character `t`,
or `none` if `t` does not occur. -/
def dropAfterChar (t : Char) : List Char → Option (List Char)
  | [] => none
  | c :: cs => if c = t then some cs else dropAfterChar t cs

/-- Suffix of `l` that follows the first (case-insensitive) occurrence of
the lowercase pattern `pat`, or `none` if `pat` does not occur. -/
def dropAfterSub (pat : List Char) : List Char → Option (List Char)
  | [] => if pat.isEmpty then some [] else none
  | c :: cs =>
    if hasPrefixCI pat (c :: cs) then some ((c :: cs).drop pat.length)
    else dropAfterSub pat cs

/-! ## A leftmost-shortest, non-overlapping `re.sub` engine

`subRF m fuel s` scans `s` left to right; at each position the matcher `m`
either recognises a match starting there — returning the replacement text
and the rest of the input after the match — or does not, in which case the
head character is emitted and scanning continues one character later.  This
is exactly Python's `re.sub` discipline for the concrete patterns used by
`clean_ai_data_response` (whose matchers below implement the non-greedy
leftmost-shortest match directly).  `fuel = s.length` always suffices since
each step consumes at least one input character. -/

def subRF (m : List Char → Option (List Char × List Char)) :
    Nat → List Char → List Char
  | 0, s => s
  | _ + 1, [] => []
  | fuel + 1, c :: cs =>
    match m (c :: cs) with
    | some (rep, rest) => rep ++ subRF m fuel rest
    | none => c :: subRF m fuel cs

/-- Run `subRF` with sufficient fuel. -/
def subAll (m : List Char → Option (List Char × List Char))
    (s : List Char) : List Char :=
  subRF m s.length s

/-! ### Matchers for the patterns of `clean_ai_data_response` -/

/-- `re.sub(r'\[.*?\]', '', line)`: a match starts at `[` and runs to the
nearest following `]`. -/
def mBracket : List Char → Option (List Char × List Char)
  | [] => none
  | c :: cs =>
    if c = '[' then (dropAfterChar ']' cs).map (fun r => ([], r)) else none

/-- `re.sub(r'\(LIT.*?\)', '', line, re.IGNORECASE)`: a match starts at `(`
followed by the literal `lit` (lowercase), and runs to the nearest
following `)`. -/
def mParenLit (lit : List Char) : List Char → Option (List Char × List Char)
  | [] => none
  | c :: cs =>
    if c = '(' && hasPrefixCI lit cs then
      (dropAfterChar ')' (cs.drop lit.length)).map (fun r => ([], r))
    else none

/-- `re.sub(r'\(LIT.*?END', '', line, re.IGNORECASE)` where `END` is a
literal tail (used for `\(See all.*?for sale\)` with `END = "for sale)"`). -/
def mParenLitEnd (lit endLit : List Char) :
    List Char → Option (List Char × List Char)
  | [] => none
  | c :: cs =>
    if c = '(' && hasPrefixCI lit cs then
      (dropAfterSub endLit (cs.drop lit.length)).map (fun r => ([], r))
    else none

/-- `re.sub(r'\(.*?PAT.*?\)', '', line, re.IGNORECASE)`: a match starts at
`(`, requires a later occurrence of `pat` and then a later `)`, and the
non-greedy quantifiers select the first such occurrence of each. -/
def mParenInner (pat : List Char) : List Char → Option (List Char × List Char)
  | [] => none
  | c :: cs =>
    if c = '(' then
      match dropAfterSub pat cs with
      | some r1 => (dropAfterChar ')' r1).map (fun r => ([], r))
      | none => none
    else none

/-- `re.sub(r'LIT.*?END', '', line, re.IGNORECASE)` (used for
`See all.*?for sale` and `See all.*?Equipment`). -/
def mLitEnd (lit endLit : List Char) :
    List Char → Option (List Char × List Char)
  | [] => none
  | c :: cs =>
    if hasPrefixCI lit (c :: cs) then
      (dropAfterSub endLit ((c :: cs).drop lit.length)).map (fun r => ([], r))
    else none

/-- `re.sub(r'\n\n\n+', '\n\n', text)`: a run of three or more newlines is
replaced (greedily, so the whole run) by two newlines. -/
def mTripleNl : List Char → Option (List Char × List Char)
  | '\n' :: '\n' :: '\n' :: rest =>
    some (['\n', '\n'], rest.dropWhile (fun c => c = '\n'))
  | _ => none

/-! ### Whitespace collapapsing and line splitting -/

/-- `re.sub(r'\s+', ' ', line)` as a one-pass state machine: `prevWs`
records whether the previous character was whitespace (so the single
replacement space was already emitted). -/
def collapseWsGo : Bool → List Char → List Char
  | _, [] => []
  | prevWs, c :: cs =>
    if isPyWs c then
      if prevWs then collapseWsGo true cs else ' ' :: collapseWsGo true cs
    else c :: collapseWsGo false cs

/-- `re.sub(r'\s+', ' ', line)`. -/
def collapseWs (l : List Char) : List Char := collapseWsGo false l

/-- `re.sub(r' +', ' ', line)` (spaces only). -/
def collapseSpGo : Bool → List Char → List Char
  | _, [] => []
  | prevSp, c :: cs =>
    if c = ' ' then
      if prevSp then collapseSpGo true cs else ' ' :: collapseSpGo true cs
    else c :: collapseSpGo false cs

/-- `re.sub(r' +', ' ', line)`. -/
def collapseSp (l : List Char) : List Char := collapseSpGo false l

/-- Python `text.split('\n')` (always at least one piece). -/
def splitOnNl : List Char → List (List Char)
  | [] => [[]]
  | c :: cs =>
    if c = '\n' then [] :: splitOnNl cs
    else
      match splitOnNl cs with
      | h :: t => (c :: h) :: t
      | [] => [[c]]

/-- Python `'\n'.join(lines)`. -/
def joinNl : List (List Char) → List Char
  | [] => []
  | [l] => l
  | l :: ls => l ++ '\n' :: joinNl ls

/-! ## `clean_ai_data_response` (process_steps.py, lines 11–86) -/

/-- `re.match(r'^\s*\*\*?W:\*\*?\s*', line, re.IGNORECASE)` for a single
word `W`: after optional whitespace, one or two `*`, the word, `:`, then
one or two `*` (with backtracking between the two-star and one-star
alternatives, as the regex engine does). -/
def star12Then (k : List Char → Bool) : List Char → Bool
  | '*' :: r =>
    (match r with
     | '*' :: r2 => k r2
     | _ => false) || k r
  | _ => false

/-- The tail of the header pattern after the stars: `W:` then `\*\*?`
(`\s*` at the end always succeeds). -/
def headerWordColon (w : List Char) (l : List Char) : Bool :=
  hasPrefixCI (w ++ [':']) l &&
    star12Then (fun _ => true) (l.drop (w.length + 1))

/-- `re.match(r'^\s*\*\*?(CATEGORY|MANUFACTURER|MODEL):\*\*?\s*', line,
re.IGNORECASE)` as a Boolean. -/
def headerMatch (l : List Char) : Bool :=
  star12Then
    (fun r =>
      headerWordColon "category".data r ||
      headerWordColon "manufacturer".data r ||
      headerWordColon "model".data r)
    (l.dropWhile isPyWs)

/-- The plain measurement units of the `has_specs` pattern. -/
def specUnits : List (List Char) :=
  ["hp".data, "kw".data, "lbs".data, "ft".data, "in".data, "gal".data,
   "gpm".data, "psi".data, "deg".data, "mph".data, "kph".data, "rpm".data,
   "amps".data, "volts".data]

/-- Does a unit of the `has_specs` pattern start here (position right after
`\d+\s*`)?  Covers the nested alternative `cu\s*(yd|in)`. -/
def unitAfter (l : List Char) : Bool :=
  specUnits.any (fun u => hasPrefixCI u l) ||
  (hasPrefixCI "cu".data l &&
    (let r := (l.drop 2).dropWhile isPyWs
     hasPrefixCI "yd".data r || hasPrefixCI "in".data r))

/-- `re.search(r'\d+\s*(hp|kw|lbs|ft|in|gal|gpm|psi|deg|mph|kph|cu\s*(yd|in)|rpm|amps|volts)', line, re.IGNORECASE)`:
some position starts a digit run followed (after optional whitespace) by a
unit. -/
def hasSpecs : List Char → Bool
  | [] => false
  | c :: cs =>
    (c.isDigit &&
      unitAfter (((c :: cs).dropWhile Char.isDigit).dropWhile isPyWs)) ||
    hasSpecs cs

/-- The final keep filter of the first pass (lines 63–65): bullet lines,
lines with a digit, or long lines containing a colon. -/
def keepLine (l : List Char) : Bool :=
  (match l with
   | c :: _ => c = '-' || c = '*'
   | [] => false) ||
  l.any Char.isDigit ||
  (decide (l.length > 10) && l.any (fun c => c = ':'))

/-- First-pass processing of one line of `clean_ai_data_response`
(lines 25–66): returns the cleaned line, or `none` if the line is dropped. -/
def processLine (line : List Char) : Option (List Char) :=
  let ol := pyStripL line
  if ol = [] then none
  else
    let l1 := subAll mBracket line
    let l2 := subAll (mParenLit "see all".data) l1
    let l3 := subAll (mParenLitEnd "see all".data "for sale)".data) l2
    let l4 := subAll (mParenLit "view".data) l3
    let l5 := subAll (mParenInner "for sale".data) l4
    let l6 := subAll (mParenInner "equipment for sale".data) l5
    if headerMatch l6 && !hasSpecs l6 then none
    else
      let l7 := subAll (mLitEnd "see all".data "for sale".data) l6
      let l8 := subAll (mLitEnd "see all".data "equipment".data) l7
      let l9 := pyStripL (collapseWs l8)
      if l9.length < 3 then none
      else if keepLine l9 then some l9 else none

/-- Second-pass processing of one line (lines 75–79). -/
def finalLine (l : List Char) : Option (List Char) :=
  let l' := collapseSp (pyStripL l)
  if l' = [] then none else some l'

/-- `clean_ai_data_response` on character lists. -/
def cleanCore (t : List Char) : List Char :=
  if t = [] then t
  else
    let kept := (splitOnNl t).filterMap processLine
    let joined := joinNl kept
    let final := (splitOnNl joined).filterMap finalLine
    pyStripL (subAll mTripleNl (joinNl final))

/-- `clean_ai_data_response` (process_steps.py, lines 11–86).  Python's
falsy check `if not text` is the empty-string check here. -/
def clean_ai_data_response (s : String) : String := ⟨cleanCore s.data⟩

/-! ## `find_column_indices` (sheet_utils.py, lines 3–84) -/

/-- `''.join(name.lower().split())`: lowercase and remove all whitespace. -/
def normNameL (s : String) : List Char :=
  (s.data.filter (fun c => !isPyWs c)).map Char.toLower

/-- Does the name contain one of the characters the source treats as regex
metacharacters (line 36)? -/
def containsRegexMeta (s : String) : Bool :=
  s.data.any (fun c =>
    c = '[' || c = '(' || c = '*' || c = '+' || c = '?' || c = '^' || c = '$')

/-- Stable insertion of one name into a longest-first list (Python's stable
`sorted(..., key=len, reverse=True)`). -/
def insertByLenDesc (x : String) : List String → List String
  | [] => [x]
  | y :: ys =>
    if y.length ≥ x.length then y :: insertByLenDesc x ys
    else x :: y :: ys

/-- `sorted(required_names, key=len, reverse=True)` (stable): names are
inserted left to right, each after the already-placed names of equal
length. -/
def sortByLenDesc (l : List String) : List String :=
  l.foldl (fun acc x => insertByLenDesc x acc) []

/-- Python-dict upsert on an insertion-ordered association list: an existing
key keeps its position and gets the new value, a new key is appended. -/
def dictUpsert (k : String) (v : Option Nat) :
    List (String × Option Nat) → List (String × Option Nat)
  | [] => [(k, v)]
  | (k', v') :: rest =>
    if k' = k then (k, v) :: rest else (k', v') :: dictUpsert k v rest

/-- Python-dict `d.get(k)` where stored values are `Option Nat` and a missing
key also yields `None`. -/
def dictGet (d : List (String × Option Nat)) (k : String) : Option Nat :=
  match d.find? (fun p => p.1 == k) with
  | some p => p.2
  | none => none

/-- The regex phase (lines 36–47): first header index, in order, whose header
is non-empty, unclaimed, and matched by the compiled pattern.  `rx pat hdr`
is the external `re.compile(pat, re.IGNORECASE).search(hdr)` oracle (an
invalid pattern, caught by `except re.error`, behaves as a never-matching
oracle and falls through to substring matching exactly as the source does). -/
def regexPhase (rx : String → String → Bool) (name : String)
    (used : List Nat) : List (Nat × String) → Option Nat
  | [] => none
  | (idx, h) :: rest =>
    if h ≠ "" && rx name h && !used.contains idx then some idx
    else regexPhase rx name used rest

/-- Result of the substring-scoring loop (lines 50–74): an exact normalized
match breaks immediately; otherwise the best-scoring substring match is
tracked (strict `>` against the running best, which starts at `0`). -/
inductive SubScan where
  | exact (idx : Nat)
  | best (idx : Option Nat) (score : ℚ)
deriving Repr, DecidableEq

/-- One candidate's substring score (lines 66–71). -/
def subScore (nn nh : List Char) : ℚ :=
  (if nh ≠ [] then (nn.length : ℚ) / (nh.length : ℚ) else 0) * 100 +
    (if hasPrefixL nn nh then 10 else 0)

/-- The substring-scoring loop over the (indexed) headers. -/
def subScan (nn : List Char) (used : List Nat) :
    List (Nat × String) → Option Nat → ℚ → SubScan
  | [], bi, bs => .best bi bs
  | (idx, h) :: rest, bi, bs =>
    if h = "" || used.contains idx then subScan nn used rest bi bs
    else
      let nh := normNameL h
      if nn = nh then .exact idx
      else if nn ≠ [] && containsSubL nn nh then
        let sc := subScore nn nh
        if sc > bs then subScan nn used rest (some idx) sc
        else subScan nn used rest bi bs
      else subScan nn used rest bi bs

/-- Processing of a single wanted name (the body of the `for name in
sorted_names` loop). -/
def fciStep (rx : String → String → Bool) (headers : List (Nat × String))
    (st : List (String × Option Nat) × List Nat) (name : String) :
    List (String × Option Nat) × List Nat :=
  let (indices, used) := st
  let viaRegex : Option Nat :=
    if containsRegexMeta name then regexPhase rx name used headers else none
  match viaRegex with
  | some idx => (dictUpsert name (some idx) indices, used ++ [idx])
  | none =>
    match subScan (normNameL name) used headers none 0 with
    | .exact idx => (dictUpsert name (some idx) indices, used ++ [idx])
    | .best (some idx) _ => (dictUpsert name (some idx) indices, used ++ [idx])
    | .best none _ => (dictUpsert name none indices, used)

/-- `find_column_indices(headers, required_names)` (sheet_utils.py).  The
result is the Python dict as an insertion-ordered association list; `rx` is
the external regex oracle (see `regexPhase`). -/
def find_column_indices (headers : List String) (requiredNames : List String)
    (rx : String → String → Bool) : List (String × Option Nat) :=
  ((sortByLenDesc requiredNames).foldl
    (fciStep rx ((List.range headers.length).zip headers)) ([], [])).1

/-! ## `normalize_price` and price formatting (process_steps.py) -/

/-- Decimal value of a digit run. -/
def digitsToNat (l : List Char) : Nat :=
  l.foldl (fun acc c => acc * 10 + (c.toNat - 48)) 0

/-- Parse the regex match `(\d+\.?\d*)` starting at a digit: the maximal
digit run, optionally a dot and a further (possibly empty) digit run.
The value is exact (`ℚ` in place of Python's `float`), built with `mkRat`
so the kernel can evaluate it. -/
def parseNum (l : List Char) : ℚ :=
  let ds := l.takeWhile Char.isDigit
  let rest := l.dropWhile Char.isDigit
  match rest with
  | '.' :: r =>
    let fs := r.takeWhile Char.isDigit
    mkRat (digitsToNat ds * 10 ^ fs.length + digitsToNat fs) (10 ^ fs.length)
  | _ => (digitsToNat ds : ℚ)

/-- `re.search(r'(\d+\.?\d*)', s)` followed by `float(...)`. -/
def firstNumber : List Char → Option ℚ
  | [] => none
  | c :: cs => if c.isDigit then some (parseNum (c :: cs)) else firstNumber cs

/-- `normalize_price(price_str)` (process_steps.py, lines 1386–1408): strip,
remove currency symbols, remove commas and spaces, extract the first decimal
number. -/
def normalize_price (s : String) : Option ℚ :=
  if s = "" then none
  else
    let t := pyStripL s.data
    let t1 := t.filter (fun c =>
      !(c = '$' || c = '€' || c = '£' || c = '¥' || c = '₹'))
    let t2 := t1.filter (fun c => !(c = ',' || c = ' '))
    firstNumber t2

/-- Decimal digits of a natural number (`fuel`-driven; `fuel = n` always
suffices). -/
def natDigitsGo : Nat → Nat → List Char → List Char
  | 0, _, acc => acc
  | fuel + 1, n, acc =>
    if n = 0 then acc
    else natDigitsGo fuel (n / 10) (Char.ofNat (48 + n % 10) :: acc)

/-- Decimal representation of a natural number. -/
def natDigits (n : Nat) : List Char :=
  if n = 0 then ['0'] else natDigitsGo n n []

/-- Two-digit zero-padded representation of the fractional part `m < 100`. -/
def pad2 (m : Nat) : List Char :=
  [Char.ofNat (48 + m / 10 % 10), Char.ofNat (48 + m % 10)]

/-- Round `num / den` (with `den > 0`) to the nearest integer, ties to even
(the rounding of Python's `format(x, '.2f')`), in integer arithmetic:
`f = ⌊num/den⌋` and the remainder `num/den - f` is compared with `1/2` via
`2*(num - f*den)` against `den`. -/
def rnd2Int (num den : ℤ) : ℤ :=
  let f := Int.fdiv num den
  let rem2 := 2 * (num - f * den)
  if rem2 < den then f
  else if rem2 > den then f + 1
  else if f % 2 = 0 then f else f + 1

/-- Python `f"{x:.2f}"` for the exact value `x`.  (Python formats the
IEEE-754 double nearest to the parsed literal; the two agree on the
instances below and on the two-decimal output shape, which is all that is
claimed — exact ties such as `0.125` are rounded to even by both.) -/
def format2f (x : ℚ) : String :=
  let n := rnd2Int (x.num * 100) (x.den)
  let m := n.natAbs
  let ds := natDigits (m / 100) ++ '.' :: pad2 (m % 100)
  ⟨if n < 0 then '-' :: ds else ds⟩

/-! ## Shared pipeline infrastructure -/

/-- Outcome of the one external text-generation call a task performs
(`genai.GenerativeModel(...).generate_content` / `AsyncOpenAI(...).create`):
either the response text, or an exception carrying the optional HTTP-like
`status_code` the handlers read off it and its string form. -/
inductive ApiResult where
  | ok (text : String)
  | err (code : Option Nat) (detail : String)
deriving Repr, DecidableEq

/-- One message broadcast on the session's progress channel
(`manager.broadcast_to_session`), with the fields every emission carries. -/
structure Event where
  etype : String
  step : String
  total : Nat
  processed : Nat
  success : Nat
  errors : Nat
  skipped : Nat
  message : Option String
deriving Repr, DecidableEq

/-- The tuple `(i, row_num, text, error_info)` a task returns (`None` for a
task that observed the cancellation flag and did nothing). -/
structure TaskRes where
  idx : Nat
  rowNum : Nat
  text : Option String
  errInfo : Option (Option Nat × String)
deriving Repr, DecidableEq

/-- The stats dictionary a step returns. -/
structure Stats where
  total : Nat
  processed : Nat
  success : Nat
  skipped : Nat
  errorsCount : Nat
deriving Repr, DecidableEq

/-- The per-run external context: the session id the step was called with,
the cancellation flag, and the API oracle. -/
structure RunCfg where
  sessionId : Option String
  cancelAt : Nat → Bool
  api : Nat → ApiResult

/-- Modelled from the spec: `manager.is_cancelled(session_id)`.
`websocket_manager.ConnectionManager` defines no `is_cancelled` (nor the
`cancel_session` that `routes.py`'s cancel endpoint calls), although
`process_steps.py` and `routes.py` call both; §3 ("CancellationFlag") and
§4.5 of spec.md specify the missing capability as a per-session boolean flag
that is false at session start, set once by an external cancel request, and
never reset during a run.  `cancelAt b` is the value the flag is observed to
have at the scheduler's check before wave `b`; tasks of wave `b` observe the
same value (the flag is modelled as changing only at wave boundaries, which
is the granularity all claims below quantify over).  The conjunction with
`sessionId.isSome` is the callers' `if session_id and manager.is_cancelled(...)`
guard. -/
def sessionCancelled (cfg : RunCfg) (b : Nat) : Bool :=
  cfg.sessionId.isSome && cfg.cancelAt b

abbrev Row := List String

/-- `safe_get_cell(row, idx)` (defined identically in every step). -/
def safe_get_cell (row : Row) (idx : Option Nat) : String :=
  match idx with
  | none => ""
  | some i =>
    match row.get? i with
    | none => ""
    | some v => pyStrip v

/-- `is_ai_data_cell_empty(row, ai_data_idx)` for a resolved (non-`None`)
index. -/
def is_ai_data_cell_empty (row : Row) (i : Nat) : Bool :=
  match row.get? i with
  | none => true
  | some v => pyStrip v = ""

/-- `is_comparable_cell_empty(row, comparable_idx)` for a resolved index. -/
def is_comparable_cell_empty (row : Row) (i : Nat) : Bool :=
  match row.get? i with
  | none => true
  | some v => pyStrip v = ""

/-- `is_price_cell_empty(row, price_idx)`: `str(row[price_idx]).strip() if
row[price_idx] else ''` is empty. -/
def is_price_cell_empty (row : Row) (i : Nat) : Bool :=
  match row.get? i with
  | none => true
  | some v => pyStrip v = ""

/-- `while len(row) <= idx: row.append("")`. -/
def padRow (row : Row) (idx : Nat) : Row :=
  row ++ List.replicate (idx + 1 - row.length) ""

/-- Pad then `row[idx] = v`. -/
def writeCell (row : Row) (idx : Nat) (v : String) : Row :=
  (padRow row idx).set idx v

/-- In-place mutation of row `i` of the shared row array. -/
def writeRows (rows : List Row) (i idx : Nat) (v : String) : List Row :=
  rows.set i (writeCell (rows.getD i []) idx v)

/-- Strip a surrounding pair of quote characters and re-strip, as the key
cleaning does for `"` and `'`. -/
def stripQuotePair (q : Char) (l : List Char) : List Char :=
  if l.head? == some q && l.getLast? == some q then pyStripL ((l.drop 1).dropLast)
  else l

/-- The key-cleaning prelude shared by every step: strip, remove a
surrounding pair of double quotes, then of single quotes. -/
def clean_api_key (k : String) : String :=
  ⟨stripQuotePair (Char.ofNat 39) (stripQuotePair '"' (pyStripL k.data))⟩

/-- The negation of `if not api_key_clean or len(api_key_clean) <= 10 or not
api_key_clean.startswith('AIzaSy')`. -/
def gemini_key_ok (kc : String) : Bool :=
  !kc.data.isEmpty && decide (kc.data.length > 10) && hasPrefixL "AIzaSy".data kc.data

/-- The negation of `if not api_key_clean or len(api_key_clean) <= 10 or not
api_key_clean.startswith('pplx-')`. -/
def perplexity_key_ok (kc : String) : Bool :=
  !kc.data.isEmpty && decide (kc.data.length > 10) && hasPrefixL "pplx-".data kc.data

def perplexityKeyRequiredMsg : String :=
  "Perplexity API key required. Please set PERPLEXITY_API_KEY in your .env file."

def perplexityKeyInvalidMsg : String :=
  "Invalid Perplexity API key. Keys must start with \"pplx-\" and be at least 10 characters long."

/-- Python `str(x)` for the optional status codes interpolated into error
messages. -/
def pyShowOptNat : Option Nat → String
  | none => "None"
  | some n => ⟨natDigits n⟩

/-- `asset_idx = col_indices.get('YOM > OEM > MODEL')` with the fallback scan
for a key whose normalized form starts with `yom>oem>model` (identical in
`generate_ai_data`, `build_description`, `ai_source_comparables`,
`extract_final_price`). -/
def resolveAssetIdx (d : List (String × Option Nat)) : Option Nat :=
  match dictGet d "YOM > OEM > MODEL" with
  | some i => some i
  | none => assetFallback d
where
  assetFallback : List (String × Option Nat) → Option Nat
    | [] => none
    | (k, v) :: rest =>
      match v with
      | none => assetFallback rest
      | some idx =>
        if hasPrefixL "yom>oem>model".data (normNameL k) then some idx
        else assetFallback rest

/-- Consecutive slices `jobs[b*20 : b*20+20]` for `b < ceil(len/20)`
(fuel-driven; `fuel = l.length` suffices for any positive slice size). -/
def chunksGo (n : Nat) : Nat → List α → List (List α)
  | 0, _ => []
  | _, [] => []
  | fuel + 1, x :: xs => (x :: xs).take n :: chunksGo n fuel ((x :: xs).drop n)

/-- Partition into consecutive waves of at most `n` jobs. -/
def chunks (n : Nat) (l : List α) : List (List α) := chunksGo n l.length l

/-- The error codes the aggregation loops treat as critical:
`if error_code in [400, 401, 429]`. -/
def criticalCodes : List (Option Nat) := [some 400, some 401, some 429]

/-! ## `generate_ai_data` (process_steps.py, lines 88–538) -/

namespace GenAiData

def stepName : String := "Generate AI Data"

def keyRequiredMsg : String :=
  "Gemini API key required. Please set GEMINI_API_KEY in your .env file."

def keyInvalidMsg : String :=
  "Invalid Gemini API key. Keys must start with \"AIzaSy\" and be at least 10 characters long."

/-- `(i, row, row_num, asset, tech)` — the unit of dispatch (the row itself
is looked up in the shared row array by `idx` at execution time, which is
the same object the tuple aliases in the source). -/
structure Job where
  idx : Nat
  rowNum : Nat
  asset : String
  tech : String
deriving Repr, DecidableEq

def explanationPhrases : List String :=
  ["i need to clarify", "i cannot", "limitation", "i appreciate",
   "according to my instructions", "would you like me", "cannot generate"]

/-- The `is_explanation` filter (lines 316–322): an explanatory phrase with
no digit anywhere, except the accepted `"No official OEM specifications
found."` sentinel. -/
def is_explanation (t : String) : Bool :=
  if pyStrip (pyLower t) = "no official oem specifications found." then false
  else
    (explanationPhrases.any fun p => containsSubL p.data (pyLower t).data) &&
      !(t.data.any Char.isDigit)

/-- The row-collection loop (lines 200–218). Returns
`(rows_to_process, skipped_filled, skipped_missing_data)`. -/
def rowsToProcessGo (aiIdx : Nat) (assetIdx techIdx : Option Nat) :
    Nat → List Row → List Job × Nat × Nat
  | _, [] => ([], 0, 0)
  | i, row :: rest =>
    let (js, sf, sm) := rowsToProcessGo aiIdx assetIdx techIdx (i + 1) rest
    if !is_ai_data_cell_empty row aiIdx then (js, sf + 1, sm)
    else
      let asset := safe_get_cell row assetIdx
      let tech := safe_get_cell row techIdx
      if asset = "" then (js, sf, sm + 1)
      else (⟨i, i + 3, asset, tech⟩ :: js, sf, sm)

/-- The row filter of `generate_ai_data`. -/
def rows_to_process (rows : List Row) (aiIdx : Nat)
    (assetIdx techIdx : Option Nat) : List Job × Nat × Nat :=
  rowsToProcessGo aiIdx assetIdx techIdx 0 rows

/-- `process_single_row` (lines 227–385): cancellation checks, the API call,
response classification, cleaning, and the in-place row write.  `cancelled`
is the flag value during this task's wave. -/
def process_single_row (cfg : RunCfg) (cancelled : Bool) (aiIdx : Nat)
    (rows : List Row) (j : Job) : List Row × Option TaskRes :=
  if cancelled then (rows, none)
  else
    match cfg.api j.idx with
    | .err code detail =>
      (rows, some ⟨j.idx, j.rowNum, none, some (code, detail)⟩)
    | .ok raw =>
      if cancelled then (rows, none)
      else if raw = "" then
        (writeRows rows j.idx aiIdx "", some ⟨j.idx, j.rowNum, some "", none⟩)
      else
        let t := pyStrip raw
        let isExpl := is_explanation t
        if t ≠ "" && !isExpl then
          let cleaned := clean_ai_data_response t
          if cancelled then (rows, none)
          else if pyStrip cleaned ≠ "" then
            (writeRows rows j.idx aiIdx cleaned,
              some ⟨j.idx, j.rowNum, some cleaned, none⟩)
          else
            (writeRows rows j.idx aiIdx t, some ⟨j.idx, j.rowNum, some t, none⟩)
        else
          if cancelled then (rows, none)
          else if isExpl then
            (writeRows rows j.idx aiIdx t, some ⟨j.idx, j.rowNum, some t, none⟩)
          else
            (writeRows rows j.idx aiIdx "", some ⟨j.idx, j.rowNum, some "", none⟩)

/-- State threaded through a run: the shared row array, the
`progress_counter`, the emitted events, `all_results`, and the indices of
the jobs actually dispatched (an observation added for the theorems; the
source has no such list). -/
structure RunSt where
  rows : List Row
  succ : Nat
  errs : Nat
  events : List Event
  results : List (Option TaskRes)
  dispatched : List Nat
deriving Repr, DecidableEq

def progressEvent (totalRows skippedFilled succ errs : Nat) : Event :=
  ⟨"progress", stepName, totalRows, succ + errs, succ, errs, skippedFilled, none⟩

/-- `process_single_row_with_progress` (lines 395–423): run the task, update
the counters under the lock (`if result[2] is not None` / `elif result[3] is
not None`), and emit one progress event when a session id is present. -/
def process_single_row_with_progress (cfg : RunCfg) (cancelled : Bool)
    (aiIdx totalRows skippedFilled : Nat) (st : RunSt) (j : Job) : RunSt :=
  let (rows', res) := process_single_row cfg cancelled aiIdx st.rows j
  let isSucc := match res with | some r => r.text.isSome | none => false
  let isErr := match res with
    | some r => !r.text.isSome && r.errInfo.isSome
    | none => false
  let succ' := st.succ + (if isSucc then 1 else 0)
  let errs' := st.errs + (if isSucc then 0 else if isErr then 1 else 0)
  let evs' :=
    if cfg.sessionId.isSome then
      st.events ++ [progressEvent totalRows skippedFilled succ' errs']
    else st.events
  ⟨rows', succ', errs', evs', st.results ++ [res], st.dispatched ++ [j.idx]⟩

def cancelledEvent (totalRows skippedFilled succ errs : Nat) : Event :=
  ⟨"cancelled", stepName, totalRows, succ + errs, succ, errs, skippedFilled,
    some "Process was cancelled by user"⟩

/-- `process_all_batches` (lines 432–464): before each wave consult the
cancellation flag; if set, emit the `cancelled` event and stop dispatching;
otherwise dispatch the whole wave and await it. -/
def process_all_batches (cfg : RunCfg) (aiIdx totalRows skippedFilled : Nat) :
    List (List Job) → Nat → RunSt → RunSt
  | [], _, st => st
  | b :: rest, bidx, st =>
    if sessionCancelled cfg bidx then
      { st with
        events := st.events ++
          [cancelledEvent totalRows skippedFilled st.succ st.errs] }
    else
      process_all_batches cfg aiIdx totalRows skippedFilled rest (bidx + 1)
        (b.foldl
          (process_single_row_with_progress cfg (sessionCancelled cfg bidx)
            aiIdx totalRows skippedFilled)
          st)

def criticalMsg (code : Option Nat) (detail : String) : String :=
  if code = some 401 then
    "CRITICAL: API authentication failed. Please check your API key. Error: " ++ detail
  else if code = some 400 then
    "CRITICAL: Invalid API request. Error: " ++ detail
  else if code = some 429 then
    "CRITICAL: API quota exceeded. Please check your API credits. Error: " ++ detail
  else
    "CRITICAL: API error (code " ++ pyShowOptNat code ++ "). Error: " ++ detail

def rowErrMsg (rowNum : Nat) (detail : String) : String :=
  "Row " ++ (⟨natDigits rowNum⟩ : String) ++ ": API error: " ++ detail

/-- Result of the aggregation loop: the error list, the stats dictionary,
and whether the loop returned early on a critical error. -/
structure AggOut where
  errorList : List String
  stats : Stats
  halted : Bool
deriving Repr, DecidableEq

/-- The result-aggregation loop (lines 474–538): runs over `all_results`
after every wave has completed; a critical code (400/401/429) returns
immediately, any other error is recorded per row, successes and no-data
rows are counted. -/
def aggregate (totalRows totalToProcess skippedFilled skippedMissing : Nat) :
    List (Option TaskRes) → List String → Nat → Nat → AggOut
  | [], errs, succ, nodata =>
    ⟨errs,
      ⟨totalRows, totalToProcess, succ,
        skippedFilled + skippedMissing + nodata, errs.length⟩, false⟩
  | none :: rest, errs, succ, nodata =>
    aggregate totalRows totalToProcess skippedFilled skippedMissing rest
      errs succ nodata
  | some r :: rest, errs, succ, nodata =>
    match r.errInfo with
    | some (code, detail) =>
      if criticalCodes.contains code then
        let errs' := errs ++ [criticalMsg code detail]
        ⟨errs',
          ⟨totalRows, totalToProcess, succ, skippedFilled + skippedMissing,
            errs'.length⟩, true⟩
      else
        aggregate totalRows totalToProcess skippedFilled skippedMissing rest
          (errs ++ [rowErrMsg r.rowNum detail]) succ nodata
    | none =>
      match r.text with
      | some t =>
        if t ≠ "" then
          aggregate totalRows totalToProcess skippedFilled skippedMissing rest
            errs (succ + 1) nodata
        else
          aggregate totalRows totalToProcess skippedFilled skippedMissing rest
            errs succ (nodata + 1)
      | none =>
        aggregate totalRows totalToProcess skippedFilled skippedMissing rest
          errs succ (nodata + 1)

/-- What `generate_ai_data` returns — `(updated_rows, errors, stats)` — plus
the two observation traces (`events`: everything broadcast on the session
channel; `dispatched`: the row indices of the jobs actually executed). -/
structure Output where
  rows : List Row
  errorList : List String
  stats : Stats
  events : List Event
  dispatched : List Nat
deriving Repr, DecidableEq

def emptyStats (totalRows errCount : Nat) : Stats :=
  ⟨totalRows, 0, 0, 0, errCount⟩

def missingColsMsg (assetIdx techIdx aiIdx : Option Nat) : String :=
  "Missing required columns. Found: asset_idx=" ++ pyShowOptNat assetIdx ++
    ", tech_idx=" ++ pyShowOptNat techIdx ++
    ", ai_data_idx=" ++ pyShowOptNat aiIdx

/-- `generate_ai_data(rows, col_indices, session_id, custom_prompt)`
(process_steps.py, lines 88–538).  `geminiKey` is `config.GEMINI_API_KEY`
(`none`/empty are both falsy).  The custom prompt only changes the prompt
text fed to the oracle, never the control flow, and is not modelled. -/
def generate_ai_data (rows : List Row)
    (colIndices : List (String × Option Nat)) (geminiKey : Option String)
    (cfg : RunCfg) : Output :=
  match geminiKey with
  | none => ⟨rows, [keyRequiredMsg], emptyStats rows.length 1, [], []⟩
  | some k =>
    if k = "" then ⟨rows, [keyRequiredMsg], emptyStats rows.length 1, [], []⟩
    else if !gemini_key_ok (clean_api_key k) then
      ⟨rows, [keyInvalidMsg], emptyStats rows.length 1, [], []⟩
    else
      let assetIdx := resolveAssetIdx colIndices
      let techIdx := dictGet colIndices "Raw Trusted Data"
      let aiIdxO := dictGet colIndices "AI Data"
      match assetIdx, techIdx, aiIdxO with
      | some aIdx, some tIdx, some ai =>
        let (jobs, sf, sm) := rows_to_process rows ai (some aIdx) (some tIdx)
        let stF := process_all_batches cfg ai rows.length sf
          (chunks 20 jobs) 0 ⟨rows, 0, 0, [], [], []⟩
        let agg := aggregate rows.length jobs.length sf sm stF.results [] 0 0
        ⟨stF.rows, agg.errorList, agg.stats, stF.events, stF.dispatched⟩
      | a, t, ai =>
        ⟨rows, [missingColsMsg a t ai], emptyStats rows.length 1, [], []⟩

/-- The completion message `routes.process_step` sends for this step
(routes.py, lines 288–318, the early send before writing to the sheet). -/
def routesCompleteEvent (totalRows : Nat) (st : Stats) : Event :=
  ⟨"complete", stepName, totalRows, st.success, st.success, st.errorsCount,
    st.skipped, none⟩

/-- The `Generate AI Data` branch of `routes.process_step` (lines 274–318):
run the step, then — when a session id is present and a WebSocket connection
is active — broadcast one `complete` event carrying the final stats. -/
def process_step_generate (rows : List Row)
    (colIndices : List (String × Option Nat)) (geminiKey : Option String)
    (cfg : RunCfg) (hasConnection : Bool) : Output :=
  let o := generate_ai_data rows colIndices geminiKey cfg
  if cfg.sessionId.isSome && hasConnection then
    { o with events := o.events ++ [routesCompleteEvent rows.length o.stats] }
  else o

end GenAiData

/-! ## `ai_source_comparables` (process_steps.py, lines 901–1280) -/

namespace Comparables

def stepName : String := "AI Source Comparables"

/-- `(i, row, row_num, asset, tech, ai_data)`. -/
structure Job where
  idx : Nat
  rowNum : Nat
  asset : String
  tech : String
  aiData : String
deriving Repr, DecidableEq

def explanationPhrases : List String :=
  ["i need to clarify", "i cannot", "limitation", "i appreciate",
   "i need to", "according to my instructions", "would you like me",
   "cannot generate", "do not contain", "search results provided"]

/-- The `is_explanation` filter of this step (lines 1107–1111): phrase
containment only — unlike `generate_ai_data`, there is no "and no digits"
condition here. -/
def is_explanation (t : String) : Bool :=
  explanationPhrases.any fun p => containsSubL p.data (pyLower t).data

/-- `has_valid_format` (line 1114). -/
def has_valid_format (t : String) : Bool :=
  containsSubL "condition:".data (pyLower t).data &&
    containsSubL "price:".data (pyLower t).data

/-- The save condition of line 1116: the (stripped) response is saved into
the row iff it is non-empty, not an explanation, and either has the expected
shape or starts with the `no comparables found` sentinel. -/
def savedResponse (t : String) : Bool :=
  !(t = "") && !is_explanation t &&
    (has_valid_format t ||
      hasPrefixL "no comparables found".data (pyLower t).data)

/-- The row-collection loop (lines 1022–1040). -/
def rowsToProcessGo (compIdx : Nat) (assetIdx techIdx aiIdx : Option Nat) :
    Nat → List Row → List Job × Nat × Nat
  | _, [] => ([], 0, 0)
  | i, row :: rest =>
    let (js, sf, sm) := rowsToProcessGo compIdx assetIdx techIdx aiIdx (i + 1) rest
    if !is_comparable_cell_empty row compIdx then (js, sf + 1, sm)
    else
      let asset := safe_get_cell row assetIdx
      let tech := safe_get_cell row techIdx
      let aiData := safe_get_cell row aiIdx
      if asset = "" || tech = "" then (js, sf, sm + 1)
      else (⟨i, i + 3, asset, tech, aiData⟩ :: js, sf, sm)

/-- The row filter of `ai_source_comparables`. -/
def rows_to_process (rows : List Row) (compIdx : Nat)
    (assetIdx techIdx aiIdx : Option Nat) : List Job × Nat × Nat :=
  rowsToProcessGo compIdx assetIdx techIdx aiIdx 0 rows

/-- `process_single_row` (lines 1054–1133): a discarded response produces
`(i, row_num, None, None)` — no result and no error. -/
def process_single_row (cfg : RunCfg) (cancelled : Bool) (compIdx : Nat)
    (rows : List Row) (j : Job) : List Row × Option TaskRes :=
  if cancelled then (rows, none)
  else
    match cfg.api j.idx with
    | .err code detail =>
      (rows, some ⟨j.idx, j.rowNum, none, some (code, detail)⟩)
    | .ok raw =>
      let t := pyStrip raw
      if savedResponse t then
        (writeRows rows j.idx compIdx t, some ⟨j.idx, j.rowNum, some t, none⟩)
      else (rows, some ⟨j.idx, j.rowNum, none, none⟩)

/-- Run state (same shape as for `generate_ai_data`). -/
structure RunSt where
  rows : List Row
  succ : Nat
  errs : Nat
  events : List Event
  results : List (Option TaskRes)
  dispatched : List Nat
deriving Repr, DecidableEq

def progressEvent (totalRows skippedFilled succ errs : Nat) : Event :=
  ⟨"progress", stepName, totalRows, succ + errs, succ, errs, skippedFilled, none⟩

/-- `process_single_row_with_progress` (lines 1143–1171). -/
def process_single_row_with_progress (cfg : RunCfg) (cancelled : Bool)
    (compIdx totalRows skippedFilled : Nat) (st : RunSt) (j : Job) : RunSt :=
  let (rows', res) := process_single_row cfg cancelled compIdx st.rows j
  let isSucc := match res with | some r => r.text.isSome | none => false
  let isErr := match res with
    | some r => !r.text.isSome && r.errInfo.isSome
    | none => false
  let succ' := st.succ + (if isSucc then 1 else 0)
  let errs' := st.errs + (if isSucc then 0 else if isErr then 1 else 0)
  let evs' :=
    if cfg.sessionId.isSome then
      st.events ++ [progressEvent totalRows skippedFilled succ' errs']
    else st.events
  ⟨rows', succ', errs', evs', st.results ++ [res], st.dispatched ++ [j.idx]⟩

def cancelledEvent (totalRows skippedFilled succ errs : Nat) : Event :=
  ⟨"cancelled", stepName, totalRows, succ + errs, succ, errs, skippedFilled,
    some "Process was cancelled by user"⟩

/-- `process_all_batches` (lines 1180–1212). -/
def process_all_batches (cfg : RunCfg) (compIdx totalRows skippedFilled : Nat) :
    List (List Job) → Nat → RunSt → RunSt
  | [], _, st => st
  | b :: rest, bidx, st =>
    if sessionCancelled cfg bidx then
      { st with
        events := st.events ++
          [cancelledEvent totalRows skippedFilled st.succ st.errs] }
    else
      process_all_batches cfg compIdx totalRows skippedFilled rest (bidx + 1)
        (b.foldl
          (process_single_row_with_progress cfg (sessionCancelled cfg bidx)
            compIdx totalRows skippedFilled)
          st)

def criticalMsg (code : Option Nat) (detail : String) : String :=
  if code = some 401 then
    "CRITICAL: API authentication failed. Please check your API key. Error: " ++ detail
  else if code = some 400 then
    "CRITICAL: Invalid API request (possibly invalid model). Error: " ++ detail
  else if code = some 429 then
    "CRITICAL: API quota exceeded. Please check your API credits. Error: " ++ detail
  else
    "CRITICAL: API error (code " ++ pyShowOptNat code ++ "). Error: " ++ detail

def rowErrMsg (rowNum : Nat) (detail : String) : String :=
  "Row " ++ (⟨natDigits rowNum⟩ : String) ++ ": API error: " ++ detail

structure AggOut where
  errorList : List String
  stats : Stats
  halted : Bool
deriving Repr, DecidableEq

/-- The result-aggregation loop (lines 1222–1280).  Note that a discarded
response — `(i, row_num, None, None)` — increments nothing at all. -/
def aggregate (totalRows totalToProcess skippedFilled skippedMissing : Nat) :
    List (Option TaskRes) → List String → Nat → AggOut
  | [], errs, succ =>
    ⟨errs,
      ⟨totalRows, totalToProcess, succ, skippedFilled + skippedMissing,
        errs.length⟩, false⟩
  | none :: rest, errs, succ =>
    aggregate totalRows totalToProcess skippedFilled skippedMissing rest errs succ
  | some r :: rest, errs, succ =>
    match r.errInfo with
    | some (code, detail) =>
      if criticalCodes.contains code then
        let errs' := errs ++ [criticalMsg code detail]
        ⟨errs',
          ⟨totalRows, totalToProcess, succ, skippedFilled + skippedMissing,
            errs'.length⟩, true⟩
      else
        aggregate totalRows totalToProcess skippedFilled skippedMissing rest
          (errs ++ [rowErrMsg r.rowNum detail]) succ
    | none =>
      match r.text with
      | some t =>
        if t ≠ "" then
          aggregate totalRows totalToProcess skippedFilled skippedMissing rest
            errs (succ + 1)
        else
          aggregate totalRows totalToProcess skippedFilled skippedMissing rest
            errs succ
      | none =>
        aggregate totalRows totalToProcess skippedFilled skippedMissing rest
          errs succ

/-- `(updated_rows, errors, stats)` plus the observation traces.  `stats` is
an `Option` because the missing-columns branch of the source (line 996)
returns a 2-tuple without stats. -/
structure Output where
  rows : List Row
  errorList : List String
  stats : Option Stats
  events : List Event
  dispatched : List Nat
deriving Repr, DecidableEq

def emptyStats (totalRows errCount : Nat) : Stats :=
  ⟨totalRows, 0, 0, 0, errCount⟩

def missingColsMsg (assetIdx techIdx compIdx : Option Nat) : String :=
  "Missing required columns. Found: asset_idx=" ++ pyShowOptNat assetIdx ++
    ", tech_idx=" ++ pyShowOptNat techIdx ++
    ", comparable_idx=" ++ pyShowOptNat compIdx

/-- `ai_source_comparables(rows, col_indices, custom_prompt, session_id)`
(process_steps.py, lines 901–1280).  `perplexityKey` is
`config.PERPLEXITY_API_KEY`. -/
def ai_source_comparables (rows : List Row)
    (colIndices : List (String × Option Nat)) (perplexityKey : Option String)
    (cfg : RunCfg) : Output :=
  match perplexityKey with
  | none =>
    ⟨rows, [perplexityKeyRequiredMsg], some (emptyStats rows.length 1), [], []⟩
  | some k =>
    if k = "" then
      ⟨rows, [perplexityKeyRequiredMsg], some (emptyStats rows.length 1), [], []⟩
    else if !perplexity_key_ok (clean_api_key k) then
      ⟨rows, [perplexityKeyInvalidMsg], some (emptyStats rows.length 1), [], []⟩
    else
      let assetIdx := resolveAssetIdx colIndices
      let techIdx := dictGet colIndices "Raw Trusted Data"
      let aiIdx := dictGet colIndices "AI Data"
      let compIdxO := dictGet colIndices "AI Comparable Price"
      match assetIdx, techIdx, compIdxO with
      | some aIdx, some tIdx, some ci =>
        let (jobs, sf, sm) :=
          rows_to_process rows ci (some aIdx) (some tIdx) aiIdx
        let stF := process_all_batches cfg ci rows.length sf
          (chunks 20 jobs) 0 ⟨rows, 0, 0, [], [], []⟩
        let agg := aggregate rows.length jobs.length sf sm stF.results [] 0
        ⟨stF.rows, agg.errorList, some agg.stats, stF.events, stF.dispatched⟩
      | a, t, ci =>
        ⟨rows, [missingColsMsg a t ci], none, [], []⟩

end Comparables

/-! ## `extract_final_price` (process_steps.py, lines 1283–1641) -/

namespace ExtractPrice

def stepName : String := "Extract price from AI Comparable"

/-- `(i, row, row_num, asset, tech, ai_data, comparable)`. -/
structure Job where
  idx : Nat
  rowNum : Nat
  asset : String
  tech : String
  aiData : String
  comparable : String
deriving Repr, DecidableEq

/-- The row-collection loop (lines 1433–1453). Returns
`(rows_to_process, skipped_empty_price, skipped_missing_data)`. -/
def rowsToProcessGo (priceIdx : Nat)
    (assetIdx techIdx aiIdx compIdx : Option Nat) :
    Nat → List Row → List Job × Nat × Nat
  | _, [] => ([], 0, 0)
  | i, row :: rest =>
    let (js, sf, sm) :=
      rowsToProcessGo priceIdx assetIdx techIdx aiIdx compIdx (i + 1) rest
    if !is_price_cell_empty row priceIdx then (js, sf + 1, sm)
    else
      let asset := safe_get_cell row assetIdx
      let tech := safe_get_cell row techIdx
      let aiData := safe_get_cell row aiIdx
      let comparable := safe_get_cell row compIdx
      if asset = "" || tech = "" || comparable = "" then (js, sf, sm + 1)
      else (⟨i, i + 3, asset, tech, aiData, comparable⟩ :: js, sf, sm)

/-- The row filter of `extract_final_price`. -/
def rows_to_process (rows : List Row) (priceIdx : Nat)
    (assetIdx techIdx aiIdx compIdx : Option Nat) : List Job × Nat × Nat :=
  rowsToProcessGo priceIdx assetIdx techIdx aiIdx compIdx 0 rows

/-- `price_text.upper() in ['NONE', 'N/A', 'NA', '']`. -/
def noneMarkers : List String := ["NONE", "N/A", "NA", ""]

def cantExtractMsg (t : String) : String :=
  "Could not extract valid price from: \"" ++ t ++ "\""

/-- `process_single_row` (lines 1463–1524): empty / `NONE`-marker responses
yield no result and no error; a parsed, strictly positive price is formatted
with `f"{p:.2f}"` and written; anything else is a row-level error with no
status code. -/
def process_single_row (cfg : RunCfg) (cancelled : Bool) (priceIdx : Nat)
    (rows : List Row) (j : Job) : List Row × Option TaskRes :=
  if cancelled then (rows, none)
  else
    match cfg.api j.idx with
    | .err code detail =>
      (rows, some ⟨j.idx, j.rowNum, none, some (code, detail)⟩)
    | .ok raw =>
      let t := pyStrip raw
      if t = "" || noneMarkers.contains (pyUpper t) then
        (rows, some ⟨j.idx, j.rowNum, none, none⟩)
      else
        match normalize_price t with
        | some p =>
          if p > 0 then
            let fp := format2f p
            (writeRows rows j.idx priceIdx fp,
              some ⟨j.idx, j.rowNum, some fp, none⟩)
          else
            (rows, some ⟨j.idx, j.rowNum, none, some (none, cantExtractMsg t)⟩)
        | none =>
          (rows, some ⟨j.idx, j.rowNum, none, some (none, cantExtractMsg t)⟩)

structure RunSt where
  rows : List Row
  succ : Nat
  errs : Nat
  events : List Event
  results : List (Option TaskRes)
  dispatched : List Nat
deriving Repr, DecidableEq

def progressEvent (totalRows skippedFilled succ errs : Nat) : Event :=
  ⟨"progress", stepName, totalRows, succ + errs, succ, errs, skippedFilled, none⟩

/-- `process_single_row_with_progress` (lines 1533–1558). -/
def process_single_row_with_progress (cfg : RunCfg) (cancelled : Bool)
    (priceIdx totalRows skippedFilled : Nat) (st : RunSt) (j : Job) : RunSt :=
  let (rows', res) := process_single_row cfg cancelled priceIdx st.rows j
  let isSucc := match res with | some r => r.text.isSome | none => false
  let isErr := match res with
    | some r => !r.text.isSome && r.errInfo.isSome
    | none => false
  let succ' := st.succ + (if isSucc then 1 else 0)
  let errs' := st.errs + (if isSucc then 0 else if isErr then 1 else 0)
  let evs' :=
    if cfg.sessionId.isSome then
      st.events ++ [progressEvent totalRows skippedFilled succ' errs']
    else st.events
  ⟨rows', succ', errs', evs', st.results ++ [res], st.dispatched ++ [j.idx]⟩

/-- `process_all_batches` (lines 1567–1587).  Unlike the previous two steps,
a cancellation here just breaks — no `cancelled` event is broadcast. -/
def process_all_batches (cfg : RunCfg) (priceIdx totalRows skippedFilled : Nat) :
    List (List Job) → Nat → RunSt → RunSt
  | [], _, st => st
  | b :: rest, bidx, st =>
    if sessionCancelled cfg bidx then st
    else
      process_all_batches cfg priceIdx totalRows skippedFilled rest (bidx + 1)
        (b.foldl
          (process_single_row_with_progress cfg (sessionCancelled cfg bidx)
            priceIdx totalRows skippedFilled)
          st)

def criticalMsg (code : Option Nat) : String :=
  if code = some 401 then "Perplexity API key authentication failed."
  else if code = some 400 then "Perplexity API model is invalid."
  else if code = some 429 then "Perplexity API quota exceeded."
  else "Perplexity API error (code " ++ pyShowOptNat code ++ ")."

def rowErrMsg (rowNum : Nat) (detail : String) : String :=
  "Row " ++ (⟨natDigits rowNum⟩ : String) ++ ": " ++ detail

/-- The result-aggregation loop (lines 1598–1630): the error list, the
`filled_rows` list, and the early-return flag. -/
def aggregate : List (Option TaskRes) → List String → List Nat →
    (List String × List Nat × Bool)
  | [], errs, filled => (errs, filled, false)
  | none :: rest, errs, filled => aggregate rest errs filled
  | some r :: rest, errs, filled =>
    match r.errInfo with
    | some (code, _detail) =>
      if criticalCodes.contains code then
        (errs ++ [criticalMsg code], filled, true)
      else aggregate rest (errs ++ [rowErrMsg r.rowNum _detail]) filled
    | none =>
      match r.text with
      | some t =>
        if t ≠ "" then aggregate rest errs (filled ++ [r.rowNum])
        else aggregate rest errs filled
      | none => aggregate rest errs filled

/-- `(updated_rows, errors, filled_rows)` plus the observation traces. -/
structure Output where
  rows : List Row
  errorList : List String
  filledRows : List Nat
  events : List Event
  dispatched : List Nat
deriving Repr, DecidableEq

def missingColsMsg (assetIdx techIdx compIdx priceIdx : Option Nat) : String :=
  "Missing required columns. Found: asset_idx=" ++ pyShowOptNat assetIdx ++
    ", tech_idx=" ++ pyShowOptNat techIdx ++
    ", comparable_idx=" ++ pyShowOptNat compIdx ++
    ", price_idx=" ++ pyShowOptNat priceIdx

/-- `extract_final_price(rows, col_indices, custom_prompt, session_id)`
(process_steps.py, lines 1283–1641). -/
def extract_final_price (rows : List Row)
    (colIndices : List (String × Option Nat)) (perplexityKey : Option String)
    (cfg : RunCfg) : Output :=
  match perplexityKey with
  | none => ⟨rows, [perplexityKeyRequiredMsg], [], [], []⟩
  | some k =>
    if k = "" then ⟨rows, [perplexityKeyRequiredMsg], [], [], []⟩
    else if !perplexity_key_ok (clean_api_key k) then
      ⟨rows, [perplexityKeyInvalidMsg], [], [], []⟩
    else
      let assetIdx := resolveAssetIdx colIndices
      let techIdx := dictGet colIndices "Raw Trusted Data"
      let aiIdx := dictGet colIndices "AI Data"
      let compIdx := dictGet colIndices "AI Comparable Price"
      let priceIdxO := dictGet colIndices "Price"
      match assetIdx, techIdx, compIdx, priceIdxO with
      | some aIdx, some tIdx, some ci, some pi =>
        let (jobs, sf, _sm) :=
          rows_to_process rows pi (some aIdx) (some tIdx) aiIdx (some ci)
        let stF := process_all_batches cfg pi rows.length sf
          (chunks 20 jobs) 0 ⟨rows, 0, 0, [], [], []⟩
        let (errs, filled, _) := aggregate stF.results [] []
        ⟨stF.rows, errs, filled, stF.events, stF.dispatched⟩
      | a, t, ci, pi =>
        ⟨rows, [missingColsMsg a t ci pi], [], [], []⟩

end ExtractPrice

/-! ## The API-key validation prefix of `build_description`
(process_steps.py, lines 560–597) -/

/-- The key-validation prefix of `build_description`: `some (rows, errors)`
models an immediate `return rows, [error_msg]`, `none` means the function
proceeds past validation. -/
def build_description_key_guard (rows : List Row)
    (perplexityKey : Option String) : Option (List Row × List String) :=
  match perplexityKey with
  | none => some (rows, [perplexityKeyRequiredMsg])
  | some k =>
    if k = "" then some (rows, [perplexityKeyRequiredMsg])
    else if !perplexity_key_ok (clean_api_key k) then
      some (rows, [perplexityKeyInvalidMsg])
    else none

/-! ## Theorems

Helper lemmas first, then one theorem per claim (with witnesses and
counterexamples where required). -/

/-! ### C5: the column resolver -/

theorem insertByLenDesc_perm (x : String) (l : List String) :
    (insertByLenDesc x l).Perm (x :: l) := by
  induction l with
  | nil => simp [insertByLenDesc]
  | cons y ys ih =>
    simp only [insertByLenDesc]
    split
    · exact (ih.cons y).trans (List.Perm.swap x y ys)
    · exact List.Perm.refl _

theorem insertByLenDesc_sorted (x : String) (l : List String)
    (h : l.Sorted (fun a b : String => b.length ≤ a.length)) :
    (insertByLenDesc x l).Sorted (fun a b : String => b.length ≤ a.length) := by
  induction l with
  | nil => simp [insertByLenDesc]
  | cons y ys ih =>
    simp only [insertByLenDesc]
    rw [List.sorted_cons] at h
    split
    · rename_i hlen
      rw [List.sorted_cons]
      refine ⟨fun b hb => ?_, ih h.2⟩
      rcases List.mem_cons.mp ((insertByLenDesc_perm x ys).mem_iff.mp hb) with
        rfl | hb'
      · exact hlen
      · exact h.1 b hb'
    · rename_i hlen
      push_neg at hlen
      rw [List.sorted_cons]
      refine ⟨fun b hb => ?_, List.sorted_cons.mpr h⟩
      rcases List.mem_cons.mp hb with rfl | hb'
      · omega
      · exact le_trans (h.1 b hb') (le_of_lt hlen)

theorem sortByLenDesc_perm (l : List String) : (sortByLenDesc l).Perm l := by
  suffices h : ∀ acc : List String,
      (l.foldl (fun acc x => insertByLenDesc x acc) acc).Perm (l.reverse ++ acc) by
    have h0 := h []
    rw [List.append_nil] at h0
    exact h0.trans (List.reverse_perm l)
  induction l with
  | nil => intro acc; simp
  | cons x xs ih =>
    intro acc
    simp only [List.foldl_cons, List.reverse_cons, List.append_assoc,
      List.singleton_append]
    exact (ih (insertByLenDesc x acc)).trans
      (List.Perm.append_left xs.reverse (insertByLenDesc_perm x acc))

theorem sortByLenDesc_sorted (l : List String) :
    (sortByLenDesc l).Sorted (fun a b : String => b.length ≤ a.length) := by
  suffices h : ∀ acc : List String,
      acc.Sorted (fun a b : String => b.length ≤ a.length) →
      (l.foldl (fun acc x => insertByLenDesc x acc) acc).Sorted
        (fun a b : String => b.length ≤ a.length) by
    exact h [] (by simp)
  induction l with
  | nil => intro acc hacc; simpa using hacc
  | cons x xs ih =>
    intro acc hacc
    exact ih _ (insertByLenDesc_sorted x acc hacc)

theorem countP_dictUpsert_le (p : String × Option Nat → Bool) (k : String)
    (v : Option Nat) (d : List (String × Option Nat)) :
    (dictUpsert k v d).countP p ≤ d.countP p + (if p (k, v) then 1 else 0) := by
  induction d with
  | nil => simp [dictUpsert, List.countP_cons]
  | cons e rest ih =>
    obtain ⟨k', v'⟩ := e
    simp only [dictUpsert]
    split
    · simp only [List.countP_cons]
      omega
    · simp only [List.countP_cons]
      omega

theorem regexPhase_not_used (rx : String → String → Bool) (name : String)
    (used : List Nat) (hs : List (Nat × String)) (idx : Nat)
    (h : regexPhase rx name used hs = some idx) : idx ∉ used := by
  induction hs with
  | nil => simp [regexPhase] at h
  | cons e rest ih =>
    obtain ⟨j, hd⟩ := e
    simp only [regexPhase] at h
    split at h
    · rename_i hcond
      cases h
      simp at hcond
      exact hcond.2
    · exact ih h

theorem subScan_not_used (nn : List Char) (used : List Nat)
    (hs : List (Nat × String)) (bi : Option Nat) (bs : ℚ)
    (hbi : ∀ j, bi = some j → j ∉ used) :
    (∀ idx, subScan nn used hs bi bs = .exact idx → idx ∉ used) ∧
    (∀ idx sc, subScan nn used hs bi bs = .best (some idx) sc → idx ∉ used) := by
  induction hs generalizing bi bs with
  | nil =>
    refine ⟨fun idx h => by simp [subScan] at h, fun idx sc h => ?_⟩
    simp only [subScan, SubScan.best.injEq] at h
    exact hbi idx h.1
  | cons e rest ih =>
    obtain ⟨j, hd⟩ := e
    have key : ∀ (bi' : Option Nat) (bs' : ℚ),
        (∀ j', bi' = some j' → j' ∉ used) →
        subScan nn used ((j, hd) :: rest) bi bs = subScan nn used rest bi' bs' →
        (∀ idx, subScan nn used ((j, hd) :: rest) bi bs = .exact idx →
          idx ∉ used) ∧
        (∀ idx sc, subScan nn used ((j, hd) :: rest) bi bs =
          .best (some idx) sc → idx ∉ used) := by
      intro bi' bs' hbi' heq
      refine ⟨fun idx h => ?_, fun idx sc h => ?_⟩
      · exact (ih bi' bs' hbi').1 idx (heq ▸ h)
      · exact (ih bi' bs' hbi').2 idx sc (heq ▸ h)
    by_cases hskip : (hd = "" || used.contains j) = true
    · exact key bi bs hbi (by rw [subScan, if_pos hskip])
    · have hjused : j ∉ used := by
        simp only [Bool.or_eq_true, not_or] at hskip
        simpa using hskip.2
      by_cases hex : nn = normNameL hd
      · refine ⟨fun idx h => ?_, fun idx sc h => ?_⟩ <;>
          rw [subScan, if_neg hskip, if_pos hex] at h
        · cases h; exact hjused
        · cases h
      · by_cases hsub : (decide (nn ≠ []) && containsSubL nn (normNameL hd)) = true
        · by_cases hsc : subScore nn (normNameL hd) > bs
          · exact key (some j) (subScore nn (normNameL hd))
              (by rintro j' ⟨rfl⟩; exact hjused)
              (by rw [subScan, if_neg hskip, if_neg hex]; simp only [hsub,
                if_true]; rw [if_pos hsc])
          · exact key bi bs hbi
              (by rw [subScan, if_neg hskip, if_neg hex]; simp only [hsub,
                if_true]; rw [if_neg hsc])
        · exact key bi bs hbi
            (by rw [subScan, if_neg hskip, if_neg hex, if_neg hsub])

/-- Invariant of the resolver fold: every header index is the value of at
most one dict entry, and only indices in `used` are values at all. -/
def FciInv (st : List (String × Option Nat) × List Nat) : Prop :=
  ∀ i : Nat,
    st.1.countP (fun e => e.2 == some i) ≤ if i ∈ st.2 then 1 else 0

theorem fciInv_assign (indices : List (String × Option Nat)) (used : List Nat)
    (name : String) (idx : Nat) (hinv : FciInv (indices, used))
    (hidx : idx ∉ used) :
    FciInv (dictUpsert name (some idx) indices, used ++ [idx]) := by
  intro i
  have hle := countP_dictUpsert_le (fun e => e.2 == some i) name (some idx) indices
  have hold := hinv i
  by_cases hi : i = idx
  · subst hi
    have h0 : (if i ∈ used then 1 else 0) = 0 := by simp [hidx]
    rw [h0] at hold
    have : (indices.countP fun e => e.2 == some i) = 0 := Nat.le_zero.mp hold
    simp only [this, Nat.zero_add] at hle
    have hmem : i ∈ used ++ [i] := by simp
    simp only [hmem, if_true]
    simpa using hle
  · have hp : (some idx == some i) = false := by simp [Ne.symm hi]
    simp only [hp, if_false, Nat.add_zero] at hle
    have hmem : i ∈ used ++ [idx] ↔ i ∈ used := by simp [hi]
    simp only [hmem]
    exact le_trans (by simpa using hle) hold

theorem fciInv_none (indices : List (String × Option Nat)) (used : List Nat)
    (name : String) (hinv : FciInv (indices, used)) :
    FciInv (dictUpsert name none indices, used) := by
  intro i
  have hle := countP_dictUpsert_le (fun e => e.2 == some i) name none indices
  simp only [show ((none : Option Nat) == some i) = false from by simp,
    if_false, Nat.add_zero] at hle
  exact le_trans (by simpa using hle) (hinv i)

theorem fciStep_preserves (rx : String → String → Bool)
    (headers : List (Nat × String)) (st : List (String × Option Nat) × List Nat)
    (name : String) (hinv : FciInv st) : FciInv (fciStep rx headers st name) := by
  obtain ⟨indices, used⟩ := st
  simp only [fciStep]
  cases hreg : (if containsRegexMeta name then regexPhase rx name used headers
      else none) with
  | some idx =>
    have hidx : idx ∉ used := by
      by_cases hm : containsRegexMeta name
      · rw [if_pos hm] at hreg
        exact regexPhase_not_used rx name used headers idx hreg
      · rw [if_neg hm] at hreg; cases hreg
    exact fciInv_assign indices used name idx hinv hidx
  | none =>
    cases hscan : subScan (normNameL name) used headers none 0 with
    | exact idx =>
      exact fciInv_assign indices used name idx hinv
        ((subScan_not_used _ _ _ _ _ (by intro j h; cases h)).1 idx hscan)
    | best bi sc =>
      cases bi with
      | some idx =>
        exact fciInv_assign indices used name idx hinv
          ((subScan_not_used _ _ _ _ _ (by intro j h; cases h)).2 idx sc hscan)
      | none => exact fciInv_none indices used name hinv

theorem find_column_indices_inv (headers : List String)
    (required : List String) (rx : String → String → Bool) (i : Nat) :
    (find_column_indices headers required rx).countP
      (fun e => e.2 == some i) ≤ 1 := by
  have main : ∀ (names : List String) (st : List (String × Option Nat) × List Nat),
      FciInv st →
      FciInv (names.foldl
        (fciStep rx ((List.range headers.length).zip headers)) st) := by
    intro names
    induction names with
    | nil => intro st h; exact h
    | cons n ns ih =>
      intro st h
      exact ih _ (fciStep_preserves rx _ st n h)
  have h0 : FciInv (([], []) : List (String × Option Nat) × List Nat) := by
    intro i; simp
  have := main (sortByLenDesc required) ([], []) h0 i
  refine le_trans this ?_
  split <;> omega

/-- C5: `find_column_indices` applied to headers `["Price", "AI Comparable
Price"]` and wanted names `["AI Comparable Price", "Price"]` maps
`"AI Comparable Price"` to index 1 and `"Price"` to index 0; in general the
wanted names are processed longest-first (the processing order is a
length-descending stable permutation of the wanted names) and every header
index is claimed by at most one wanted name. -/
theorem C5_column_resolver :
    (find_column_indices ["Price", "AI Comparable Price"]
        ["AI Comparable Price", "Price"] (fun _ _ => false) =
      [("AI Comparable Price", some 1), ("Price", some 0)]) ∧
    (∀ required : List String,
      (sortByLenDesc required).Perm required ∧
      (sortByLenDesc required).Sorted (fun a b : String => b.length ≤ a.length)) ∧
    (∀ (headers required : List String) (rx : String → String → Bool) (i : Nat),
      (find_column_indices headers required rx).countP
        (fun e => e.2 == some i) ≤ 1) := by
  refine ⟨by decide, fun required => ⟨sortByLenDesc_perm required,
    sortByLenDesc_sorted required⟩, find_column_indices_inv⟩

/-! ### C6: price normalization and formatting -/

theorem digitChar_isDigit (d : Nat) (hd : d ≤ 9) :
    (Char.ofNat (48 + d)).isDigit = true := by
  interval_cases d <;> decide

theorem natDigitsGo_digits (fuel : Nat) :
    ∀ (n : Nat) (acc : List Char), (∀ c ∈ acc, c.isDigit = true) →
      ∀ c ∈ natDigitsGo fuel n acc, c.isDigit = true := by
  induction fuel with
  | zero => intro n acc hacc c hc; exact hacc c hc
  | succ fuel ih =>
    intro n acc hacc c hc
    simp only [natDigitsGo] at hc
    split at hc
    · exact hacc c hc
    · refine ih (n / 10) _ ?_ c hc
      intro c' hc'
      rcases List.mem_cons.mp hc' with rfl | h
      · exact digitChar_isDigit (n % 10) (by omega)
      · exact hacc c' h

theorem natDigits_digits (n : Nat) : ∀ c ∈ natDigits n, c.isDigit = true := by
  intro c hc
  simp only [natDigits] at hc
  split at hc
  · rcases List.mem_singleton.mp hc with rfl; decide
  · exact natDigitsGo_digits n n [] (by simp) c hc

theorem rnd2Int_nonneg (num den : ℤ) (hn : 0 ≤ num) (hd : 0 ≤ den) :
    0 ≤ rnd2Int num den := by
  have hf : (0 : ℤ) ≤ Int.fdiv num den := Int.fdiv_nonneg hn hd
  simp only [rnd2Int]
  split
  · exact hf
  · split
    · omega
    · split <;> omega

/-- The output shape of a two-decimal formatted value: some dot-free prefix,
a dot, then exactly two digits. -/
def twoDecimalsAfterDot (s : String) : Prop :=
  ∃ (a : List Char) (b c : Char),
    s.data = a ++ ['.', b, c] ∧ b.isDigit = true ∧ c.isDigit = true ∧ '.' ∉ a

theorem format2f_twoDecimals (q : ℚ) (hq : 0 ≤ q) :
    twoDecimalsAfterDot (format2f q) := by
  have hn : 0 ≤ rnd2Int (q.num * 100) q.den := by
    refine rnd2Int_nonneg _ _ ?_ (by positivity)
    have := Rat.num_nonneg.mpr hq
    positivity
  refine ⟨natDigits ((rnd2Int (q.num * 100) q.den).natAbs / 100),
    Char.ofNat (48 + (rnd2Int (q.num * 100) q.den).natAbs % 100 / 10 % 10),
    Char.ofNat (48 + (rnd2Int (q.num * 100) q.den).natAbs % 100 % 10),
    ?_, ?_, ?_, ?_⟩
  · simp only [format2f, pad2]
    rw [if_neg (by omega)]
  · exact digitChar_isDigit _ (by omega)
  · exact digitChar_isDigit _ (by omega)
  · intro hdot
    have := natDigits_digits _ _ hdot
    simp at this

/-- C6: price normalization — `"$50,000.00 USD"` parses to `50000` and a
one-row `extract_final_price` run writes it as `"50000.00"`;
`"Call for Price"` yields no number; in general a task's value write happens
exactly for a parsed, strictly positive price that is not an empty/`NONE`
marker response, and every accepted value is formatted with exactly two
digits after the decimal point. -/
theorem C6_price_normalization :
    normalize_price "$50,000.00 USD" = some 50000 ∧
    normalize_price "Call for Price" = none ∧
    ((ExtractPrice.extract_final_price [["a", "t", "c", ""]]
        [("YOM > OEM > MODEL", some 0), ("Raw Trusted Data", some 1),
         ("AI Comparable Price", some 2), ("Price", some 3)]
        (some "pplx-123456789")
        ⟨none, fun _ => false, fun _ => ApiResult.ok "$50,000.00 USD"⟩).rows =
      [["a", "t", "c", "50000.00"]]) ∧
    (∀ (cfg : RunCfg) (priceIdx : Nat) (rows : List Row)
        (j : ExtractPrice.Job) (raw : String),
      cfg.api j.idx = ApiResult.ok raw →
      ∀ v : String,
        ((ExtractPrice.process_single_row cfg false priceIdx rows j).2 =
            some ⟨j.idx, j.rowNum, some v, none⟩ ↔
          (¬(pyStrip raw = "" ∨
              ExtractPrice.noneMarkers.contains (pyUpper (pyStrip raw)) = true) ∧
            ∃ p : ℚ, normalize_price (pyStrip raw) = some p ∧ 0 < p ∧
              v = format2f p))) ∧
    (∀ q : ℚ, 0 ≤ q → twoDecimalsAfterDot (format2f q)) := by
  refine ⟨by decide, by decide, by decide, ?_, format2f_twoDecimals⟩
  intro cfg priceIdx rows j raw hapi v
  simp only [ExtractPrice.process_single_row, hapi]
  rw [if_neg (show ¬(false = true) by simp)]
  by_cases hmk : (decide (pyStrip raw = "") ||
      ExtractPrice.noneMarkers.contains (pyUpper (pyStrip raw))) = true
  · rw [if_pos hmk]
    simp only [Option.some.injEq, TaskRes.mk.injEq]
    constructor
    · rintro ⟨-, -, h, -⟩; cases h
    · rintro ⟨hne, -⟩
      exact absurd (by simpa using hmk) hne
  · rw [if_neg hmk]
    cases hnp : normalize_price (pyStrip raw) with
    | none =>
      dsimp only
      simp only [Option.some.injEq, TaskRes.mk.injEq]
      constructor
      · rintro ⟨-, -, h, -⟩; cases h
      · rintro ⟨-, p, hp, -⟩; cases hp
    | some p =>
      dsimp only
      by_cases hpos : p > 0
      · rw [if_pos hpos]
        simp only [Option.some.injEq, TaskRes.mk.injEq, true_and]
        constructor
        · rintro ⟨h, -⟩
          exact ⟨by simpa using hmk, p, rfl, hpos, h.symm⟩
        · rintro ⟨-, p', rfl, -, rfl⟩
          exact ⟨rfl, trivial⟩
      · rw [if_neg hpos]
        simp only [Option.some.injEq, TaskRes.mk.injEq]
        constructor
        · rintro ⟨-, -, h, -⟩; cases h
        · rintro ⟨-, p', rfl, hpos', -⟩
          exact absurd hpos' hpos

/-- Witness for C6's universally quantified parts at a concrete input. -/
theorem C6_price_normalization_witness :
    ((ExtractPrice.process_single_row
        ⟨none, fun _ => false, fun _ => ApiResult.ok " $50,000.00 USD "⟩ false 3
        [["a", "t", "c", ""]] ⟨0, 3, "a", "t", "", "c"⟩).2 =
      some ⟨0, 3, some "50000.00", none⟩) ∧
    twoDecimalsAfterDot (format2f 50000) := by
  constructor
  · exact (C6_price_normalization.2.2.2.1
      ⟨none, fun _ => false, fun _ => ApiResult.ok " $50,000.00 USD "⟩ 3
      [["a", "t", "c", ""]] ⟨0, 3, "a", "t", "", "c"⟩ " $50,000.00 USD " rfl
      "50000.00").mpr ⟨by decide, 50000, by decide, by norm_num, by decide⟩
  · exact C6_price_normalization.2.2.2.2 50000 (by norm_num)

/-! ### C7: the comparables save condition -/

/-- The save condition as claim C7 reads it: meta-commentary means an
explanatory phrase AND no digits (that is the `generate_ai_data` rule; this
definition exists only to be compared against the source's
`Comparables.savedResponse`). -/
def savedResponseClaimed (t : String) : Bool :=
  !(t = "") &&
    !(Comparables.is_explanation t && !(t.data.any Char.isDigit)) &&
    (Comparables.has_valid_format t ||
      hasPrefixL "no comparables found".data (pyLower t).data)

/-- C7 counterexample: a well-formed listing response that also contains the
phrase "I cannot" (and plenty of digits).  Under the claim's reading it is
saved (it has digits, so it is not meta-commentary, and it matches the
`Condition:`/`Price:` shape); the code discards it — a one-row run leaves
the row unchanged and reports no result and no error. -/
theorem C7_counterexample :
    (savedResponseClaimed
        "Condition: Used, Price: 5000 USD, URL: http://x. Note that I cannot verify further." = true) ∧
    (Comparables.savedResponse
        "Condition: Used, Price: 5000 USD, URL: http://x. Note that I cannot verify further." = false) ∧
    (let o := Comparables.ai_source_comparables [["a", "t", ""]]
        [("YOM > OEM > MODEL", some 0), ("Raw Trusted Data", some 1),
         ("AI Comparable Price", some 2)]
        (some "pplx-123456789")
        ⟨none, fun _ => false, fun _ => ApiResult.ok
          "Condition: Used, Price: 5000 USD, URL: http://x. Note that I cannot verify further."⟩
     o.rows = [["a", "t", ""]] ∧ o.errorList = [] ∧ o.dispatched = [0]) := by
  exact ⟨by decide, by decide, by decide, by decide⟩

/-- C7 (amended): in `ai_source_comparables`, the (stripped) API response is
saved into the row's `AI Comparable Price` cell iff it is non-empty, not
classified as meta-commentary (it contains an explanatory phrase — with no
regard to digits), and either matches the expected `Condition:`/`Price:`
shape or starts with the `no comparables found` sentinel; a discarded
response produces no result and no error and leaves the rows unchanged. -/
theorem C7_comparables_save_condition (cfg : RunCfg) (compIdx : Nat)
    (rows : List Row) (j : Comparables.Job) (raw : String)
    (hapi : cfg.api j.idx = ApiResult.ok raw) :
    ((Comparables.savedResponse (pyStrip raw) = true ↔
      (pyStrip raw ≠ "" ∧ Comparables.is_explanation (pyStrip raw) = false ∧
        (Comparables.has_valid_format (pyStrip raw) = true ∨
          hasPrefixL "no comparables found".data
            (pyLower (pyStrip raw)).data = true))) ∧
    (Comparables.savedResponse (pyStrip raw) = true →
      Comparables.process_single_row cfg false compIdx rows j =
        (writeRows rows j.idx compIdx (pyStrip raw),
          some ⟨j.idx, j.rowNum, some (pyStrip raw), none⟩)) ∧
    (Comparables.savedResponse (pyStrip raw) = false →
      Comparables.process_single_row cfg false compIdx rows j =
        (rows, some ⟨j.idx, j.rowNum, none, none⟩))) := by
  refine ⟨?_, ?_, ?_⟩
  · simp only [Comparables.savedResponse, Bool.and_eq_true, Bool.or_eq_true,
      Bool.not_eq_true']
    constructor
    · rintro ⟨⟨h1, h2⟩, h3⟩
      exact ⟨by simpa using h1, h2, h3⟩
    · rintro ⟨h1, h2, h3⟩
      exact ⟨⟨by simpa using h1, h2⟩, h3⟩
  · intro hsave
    simp only [Comparables.process_single_row, hapi]
    rw [if_neg (show ¬(false = true) by simp), if_pos hsave]
  · intro hsave
    simp only [Comparables.process_single_row, hapi]
    rw [if_neg (show ¬(false = true) by simp),
      if_neg (show ¬(Comparables.savedResponse (pyStrip raw) = true) by
        simp [hsave])]

/-- Witness for C7's amended theorem at a concrete input: a valid listing
response is saved, and the counterexample's response is discarded silently. -/
theorem C7_comparables_save_condition_witness :
    (Comparables.process_single_row
        ⟨none, fun _ => false,
          fun _ => ApiResult.ok "Condition: Used, Price: 5000, URL: x"⟩
        false 2 [["a", "t", ""]] ⟨0, 3, "a", "t", ""⟩ =
      ([["a", "t", "Condition: Used, Price: 5000, URL: x"]],
        some ⟨0, 3, some "Condition: Used, Price: 5000, URL: x", none⟩)) ∧
    (Comparables.process_single_row
        ⟨none, fun _ => false,
          fun _ => ApiResult.ok "I cannot find any listings"⟩
        false 2 [["a", "t", ""]] ⟨0, 3, "a", "t", ""⟩ =
      ([["a", "t", ""]], some ⟨0, 3, none, none⟩)) := by
  constructor
  · have h := (C7_comparables_save_condition
      ⟨none, fun _ => false,
        fun _ => ApiResult.ok "Condition: Used, Price: 5000, URL: x"⟩
      2 [["a", "t", ""]] ⟨0, 3, "a", "t", ""⟩
      "Condition: Used, Price: 5000, URL: x" rfl).2.1 (by decide)
    rw [h]
    decide
  · have h := (C7_comparables_save_condition
      ⟨none, fun _ => false, fun _ => ApiResult.ok "I cannot find any listings"⟩
      2 [["a", "t", ""]] ⟨0, 3, "a", "t", ""⟩
      "I cannot find any listings" rfl).2.2 (by decide)
    rw [h]

/-! ### C9: API-key validation -/

/-- The condition under which `generate_ai_data` rejects its key: unset or
falsy, or the cleaned key fails the `AIzaSy`/length check. -/
def geminiKeyRejected : Option String → Bool
  | none => true
  | some k => k == "" || !gemini_key_ok (clean_api_key k)

/-- The condition under which the Perplexity steps reject their key. -/
def perplexityKeyRejected : Option String → Bool
  | none => true
  | some k => k == "" || !perplexity_key_ok (clean_api_key k)

theorem geminiKeyRejected_iff (k : String) :
    geminiKeyRejected (some k) = true ↔
      ((clean_api_key k).data.length ≤ 10 ∨
        hasPrefixL "AIzaSy".data (clean_api_key k).data = false) := by
  simp only [geminiKeyRejected, Bool.or_eq_true, beq_iff_eq,
    Bool.not_eq_true']
  constructor
  · rintro (rfl | h)
    · left; decide
    · simp only [gemini_key_ok, Bool.and_eq_false_iff] at h
      rcases h with (h | h) | h
      · left
        have : (clean_api_key k).data = [] := by
          simpa using h
        simp [this]
      · left
        simpa using Nat.le_of_not_lt (by simpa using h)
      · right
        simpa using h
  · intro h
    right
    simp only [gemini_key_ok, Bool.and_eq_false_iff]
    rcases h with h | h
    · left; right
      simp only [decide_eq_false_iff_not]
      omega
    · right; exact h

theorem perplexityKeyRejected_iff (k : String) :
    perplexityKeyRejected (some k) = true ↔
      ((clean_api_key k).data.length ≤ 10 ∨
        hasPrefixL "pplx-".data (clean_api_key k).data = false) := by
  simp only [perplexityKeyRejected, Bool.or_eq_true, beq_iff_eq,
    Bool.not_eq_true']
  constructor
  · rintro (rfl | h)
    · left; decide
    · simp only [perplexity_key_ok, Bool.and_eq_false_iff] at h
      rcases h with (h | h) | h
      · left
        have : (clean_api_key k).data = [] := by
          simpa using h
        simp [this]
      · left
        simpa using Nat.le_of_not_lt (by simpa using h)
      · right
        simpa using h
  · intro h
    right
    simp only [perplexity_key_ok, Bool.and_eq_false_iff]
    rcases h with h | h
    · left; right
      simp only [decide_eq_false_iff_not]
      omega
    · right; exact h

/-- C9: every enrichment step validates its API key before dispatching any
task; on a rejected key (unset, or — after stripping whitespace and
surrounding quotes — not starting with the provider prefix or of length at
most 10) the function returns immediately with a single-element error list,
every row unchanged, no job dispatched and nothing broadcast. -/
theorem C9_api_key_validation :
    (∀ k, geminiKeyRejected k = true ↔
      (k = none ∨ ∃ s, k = some s ∧
        ((clean_api_key s).data.length ≤ 10 ∨
          hasPrefixL "AIzaSy".data (clean_api_key s).data = false))) ∧
    (∀ k rows cols cfg, geminiKeyRejected k = true →
      let o := GenAiData.generate_ai_data rows cols k cfg
      o.rows = rows ∧ o.errorList.length = 1 ∧ o.dispatched = [] ∧
        o.events = [] ∧ o.stats = GenAiData.emptyStats rows.length 1) ∧
    (∀ k rows cols cfg, perplexityKeyRejected k = true →
      let o := Comparables.ai_source_comparables rows cols k cfg
      o.rows = rows ∧ o.errorList.length = 1 ∧ o.dispatched = [] ∧
        o.events = [] ∧ o.stats = some (Comparables.emptyStats rows.length 1)) ∧
    (∀ k rows cols cfg, perplexityKeyRejected k = true →
      let o := ExtractPrice.extract_final_price rows cols k cfg
      o.rows = rows ∧ o.errorList.length = 1 ∧ o.dispatched = [] ∧
        o.events = [] ∧ o.filledRows = []) ∧
    (∀ k rows, perplexityKeyRejected k = true →
      ∃ msg, build_description_key_guard rows k = some (rows, [msg])) := by
  refine ⟨?_, ?_, ?_, ?_, ?_⟩
  · intro k
    cases k with
    | none => simp [geminiKeyRejected]
    | some s =>
      rw [geminiKeyRejected_iff]
      simp
  · intro k rows cols cfg hk
    cases k with
    | none => exact ⟨rfl, rfl, rfl, rfl, rfl⟩
    | some s =>
      by_cases hs : s = ""
      · subst hs
        simp [GenAiData.generate_ai_data]
      · have hok : gemini_key_ok (clean_api_key s) = false := by
          simp only [geminiKeyRejected, Bool.or_eq_true, beq_iff_eq,
            Bool.not_eq_true'] at hk
          exact hk.resolve_left hs
        simp [GenAiData.generate_ai_data, hs, hok]
  · intro k rows cols cfg hk
    cases k with
    | none => exact ⟨rfl, rfl, rfl, rfl, rfl⟩
    | some s =>
      by_cases hs : s = ""
      · subst hs
        simp [Comparables.ai_source_comparables]
      · have hok : perplexity_key_ok (clean_api_key s) = false := by
          simp only [perplexityKeyRejected, Bool.or_eq_true, beq_iff_eq,
            Bool.not_eq_true'] at hk
          exact hk.resolve_left hs
        simp [Comparables.ai_source_comparables, hs, hok]
  · intro k rows cols cfg hk
    cases k with
    | none => exact ⟨rfl, rfl, rfl, rfl, rfl⟩
    | some s =>
      by_cases hs : s = ""
      · subst hs
        simp [ExtractPrice.extract_final_price]
      · have hok : perplexity_key_ok (clean_api_key s) = false := by
          simp only [perplexityKeyRejected, Bool.or_eq_true, beq_iff_eq,
            Bool.not_eq_true'] at hk
          exact hk.resolve_left hs
        simp [ExtractPrice.extract_final_price, hs, hok]
  · intro k rows hk
    cases k with
    | none => exact ⟨perplexityKeyRequiredMsg, rfl⟩
    | some s =>
      by_cases hs : s = ""
      · subst hs
        exact ⟨perplexityKeyRequiredMsg, by simp [build_description_key_guard]⟩
      · have hok : perplexity_key_ok (clean_api_key s) = false := by
          simp only [perplexityKeyRejected, Bool.or_eq_true, beq_iff_eq,
            Bool.not_eq_true'] at hk
          exact hk.resolve_left hs
        exact ⟨perplexityKeyInvalidMsg,
          by simp [build_description_key_guard, hs, hok]⟩

/-- Witness for C9 at concrete rejected keys (`"AIzaS"` is too short for
Gemini; `"sk-0123456789abc"` has the wrong prefix for Perplexity). -/
theorem C9_api_key_validation_witness :
    ((GenAiData.generate_ai_data [["r"]] [] (some "AIzaS")
        ⟨none, fun _ => false, fun _ => ApiResult.ok ""⟩).rows = [["r"]]) ∧
    ((ExtractPrice.extract_final_price [["r"]] [] (some "sk-0123456789abc")
        ⟨none, fun _ => false, fun _ => ApiResult.ok ""⟩).errorList.length = 1) ∧
    (∃ msg, build_description_key_guard [["r"]] (some "sk-0123456789abc") =
      some ([["r"]], [msg])) := by
  refine ⟨(C9_api_key_validation.2.1 (some "AIzaS") [["r"]] []
      ⟨none, fun _ => false, fun _ => ApiResult.ok ""⟩ (by decide)).1,
    (C9_api_key_validation.2.2.2.1 (some "sk-0123456789abc") [["r"]] []
      ⟨none, fun _ => false, fun _ => ApiResult.ok ""⟩ (by decide)).2.1,
    C9_api_key_validation.2.2.2.2 (some "sk-0123456789abc") [["r"]]
      (by decide)⟩

/-! ### C4: the row filters -/

theorem gen_go_mem (aiIdx : Nat) (assetIdx techIdx : Option Nat) :
    ∀ (rows : List Row) (i0 i : Nat),
    (∃ j ∈ (GenAiData.rowsToProcessGo aiIdx assetIdx techIdx i0 rows).1,
        j.idx = i) ↔
      ∃ k row, rows.get? k = some row ∧ i = i0 + k ∧
        is_ai_data_cell_empty row aiIdx = true ∧
        safe_get_cell row assetIdx ≠ "" := by
  intro rows
  induction rows with
  | nil =>
    intro i0 i
    simp [GenAiData.rowsToProcessGo]
  | cons row rest ih =>
    intro i0 i
    rcases hgo : GenAiData.rowsToProcessGo aiIdx assetIdx techIdx (i0 + 1) rest
      with ⟨js, sf, sm⟩
    have ihx := fun i => (ih (i0 + 1) i)
    simp only [GenAiData.rowsToProcessGo, hgo] at *
    by_cases hemp : is_ai_data_cell_empty row aiIdx = true
    · by_cases hasset : safe_get_cell row assetIdx = ""
      · rw [if_neg (by simp [hemp]), if_pos hasset]
        simp only []
        rw [show (∃ j ∈ js, j.idx = i) ↔ _ from ihx i]
        constructor
        · rintro ⟨k, r, hk, rfl, he, ha⟩
          exact ⟨k + 1, r, by simpa using hk, by omega, he, ha⟩
        · rintro ⟨k, r, hk, rfl, he, ha⟩
          cases k with
          | zero =>
            simp only [List.get?_cons_zero, Option.some.injEq] at hk
            subst hk
            exact absurd hasset ha
          | succ k =>
            exact ⟨k, r, by simpa using hk, by omega, he, ha⟩
      · rw [if_neg (by simp [hemp]), if_neg hasset]
        simp only [List.mem_cons]
        constructor
        · rintro ⟨j, hj | hj, hidx⟩
          · subst hj
            exact ⟨0, row, rfl, by simpa using hidx.symm, hemp, hasset⟩
          · obtain ⟨k, r, hk, rfl, he, ha⟩ := (ihx i).mp ⟨j, hj, hidx⟩
            exact ⟨k + 1, r, by simpa using hk, by omega, he, ha⟩
        · rintro ⟨k, r, hk, rfl, he, ha⟩
          cases k with
          | zero =>
            exact ⟨⟨i0, i0 + 3, safe_get_cell row assetIdx,
              safe_get_cell row techIdx⟩, Or.inl rfl, by simp⟩
          | succ k =>
            obtain ⟨j, hj, hidx⟩ := (ihx (i0 + 1 + k)).mpr
              ⟨k, r, by simpa using hk, rfl, he, ha⟩
            exact ⟨j, Or.inr hj, by omega⟩
    · rw [if_pos (by simp [hemp])]
      simp only []
      rw [show (∃ j ∈ js, j.idx = i) ↔ _ from ihx i]
      constructor
      · rintro ⟨k, r, hk, rfl, he, ha⟩
        exact ⟨k + 1, r, by simpa using hk, by omega, he, ha⟩
      · rintro ⟨k, r, hk, rfl, he, ha⟩
        cases k with
        | zero =>
          simp only [List.get?_cons_zero, Option.some.injEq] at hk
          subst hk
          exact absurd he hemp
        | succ k =>
          exact ⟨k, r, by simpa using hk, by omega, he, ha⟩

theorem comp_go_mem (compIdx : Nat) (assetIdx techIdx aiIdx : Option Nat) :
    ∀ (rows : List Row) (i0 i : Nat),
    (∃ j ∈ (Comparables.rowsToProcessGo compIdx assetIdx techIdx aiIdx
        i0 rows).1, j.idx = i) ↔
      ∃ k row, rows.get? k = some row ∧ i = i0 + k ∧
        is_comparable_cell_empty row compIdx = true ∧
        safe_get_cell row assetIdx ≠ "" ∧ safe_get_cell row techIdx ≠ "" := by
  intro rows
  induction rows with
  | nil =>
    intro i0 i
    simp [Comparables.rowsToProcessGo]
  | cons row rest ih =>
    intro i0 i
    rcases hgo : Comparables.rowsToProcessGo compIdx assetIdx techIdx aiIdx
      (i0 + 1) rest with ⟨js, sf, sm⟩
    have ihx := fun i => (ih (i0 + 1) i)
    simp only [Comparables.rowsToProcessGo, hgo] at *
    by_cases hemp : is_comparable_cell_empty row compIdx = true
    · by_cases hreq : (decide (safe_get_cell row assetIdx = "") ||
          decide (safe_get_cell row techIdx = "")) = true
      · rw [if_neg (by simp [hemp]), if_pos hreq]
        simp only []
        rw [show (∃ j ∈ js, j.idx = i) ↔ _ from ihx i]
        constructor
        · rintro ⟨k, r, hk, rfl, he, ha⟩
          exact ⟨k + 1, r, by simpa using hk, by omega, he, ha⟩
        · rintro ⟨k, r, hk, rfl, he, ha, ht⟩
          cases k with
          | zero =>
            simp only [List.get?_cons_zero, Option.some.injEq] at hk
            subst hk
            simp only [Bool.or_eq_true, decide_eq_true_eq] at hreq
            rcases hreq with h | h
            · exact absurd h ha
            · exact absurd h ht
          | succ k =>
            exact ⟨k, r, by simpa using hk, by omega, he, ha, ht⟩
      · rw [if_neg (by simp [hemp]), if_neg hreq]
        simp only [Bool.or_eq_true, decide_eq_true_eq, not_or] at hreq
        simp only [List.mem_cons]
        constructor
        · rintro ⟨j, hj | hj, hidx⟩
          · subst hj
            exact ⟨0, row, rfl, by simpa using hidx.symm, hemp, hreq.1, hreq.2⟩
          · obtain ⟨k, r, hk, rfl, he, ha⟩ := (ihx i).mp ⟨j, hj, hidx⟩
            exact ⟨k + 1, r, by simpa using hk, by omega, he, ha⟩
        · rintro ⟨k, r, hk, rfl, he, ha, ht⟩
          cases k with
          | zero =>
            exact ⟨⟨i0, i0 + 3, safe_get_cell row assetIdx,
              safe_get_cell row techIdx, safe_get_cell row aiIdx⟩,
              Or.inl rfl, by simp⟩
          | succ k =>
            obtain ⟨j, hj, hidx⟩ := (ihx (i0 + 1 + k)).mpr
              ⟨k, r, by simpa using hk, rfl, he, ha, ht⟩
            exact ⟨j, Or.inr hj, by omega⟩
    · rw [if_pos (by simp [hemp])]
      simp only []
      rw [show (∃ j ∈ js, j.idx = i) ↔ _ from ihx i]
      constructor
      · rintro ⟨k, r, hk, rfl, he, ha⟩
        exact ⟨k + 1, r, by simpa using hk, by omega, he, ha⟩
      · rintro ⟨k, r, hk, rfl, he, ha⟩
        cases k with
        | zero =>
          simp only [List.get?_cons_zero, Option.some.injEq] at hk
          subst hk
          exact absurd he hemp
        | succ k =>
          exact ⟨k, r, by simpa using hk, by omega, he, ha⟩

theorem extract_go_mem (priceIdx : Nat)
    (assetIdx techIdx aiIdx compIdx : Option Nat) :
    ∀ (rows : List Row) (i0 i : Nat),
    (∃ j ∈ (ExtractPrice.rowsToProcessGo priceIdx assetIdx techIdx aiIdx
        compIdx i0 rows).1, j.idx = i) ↔
      ∃ k row, rows.get? k = some row ∧ i = i0 + k ∧
        is_price_cell_empty row priceIdx = true ∧
        safe_get_cell row assetIdx ≠ "" ∧ safe_get_cell row techIdx ≠ "" ∧
        safe_get_cell row compIdx ≠ "" := by
  intro rows
  induction rows with
  | nil =>
    intro i0 i
    simp [ExtractPrice.rowsToProcessGo]
  | cons row rest ih =>
    intro i0 i
    rcases hgo : ExtractPrice.rowsToProcessGo priceIdx assetIdx techIdx aiIdx
      compIdx (i0 + 1) rest with ⟨js, sf, sm⟩
    have ihx := fun i => (ih (i0 + 1) i)
    simp only [ExtractPrice.rowsToProcessGo, hgo] at *
    by_cases hemp : is_price_cell_empty row priceIdx = true
    · by_cases hreq : (decide (safe_get_cell row assetIdx = "") ||
          decide (safe_get_cell row techIdx = "") ||
          decide (safe_get_cell row compIdx = "")) = true
      · rw [if_neg (by simp [hemp]), if_pos hreq]
        simp only []
        rw [show (∃ j ∈ js, j.idx = i) ↔ _ from ihx i]
        constructor
        · rintro ⟨k, r, hk, rfl, he, ha⟩
          exact ⟨k + 1, r, by simpa using hk, by omega, he, ha⟩
        · rintro ⟨k, r, hk, rfl, he, ha, ht, hc⟩
          cases k with
          | zero =>
            simp only [List.get?_cons_zero, Option.some.injEq] at hk
            subst hk
            simp only [Bool.or_eq_true, decide_eq_true_eq] at hreq
            rcases hreq with (h | h) | h
            · exact absurd h ha
            · exact absurd h ht
            · exact absurd h hc
          | succ k =>
            exact ⟨k, r, by simpa using hk, by omega, he, ha, ht, hc⟩
      · rw [if_neg (by simp [hemp]), if_neg hreq]
        simp only [Bool.or_eq_true, decide_eq_true_eq, not_or] at hreq
        simp only [List.mem_cons]
        constructor
        · rintro ⟨j, hj | hj, hidx⟩
          · subst hj
            exact ⟨0, row, rfl, by simpa using hidx.symm, hemp,
              hreq.1.1, hreq.1.2, hreq.2⟩
          · obtain ⟨k, r, hk, rfl, he, ha⟩ := (ihx i).mp ⟨j, hj, hidx⟩
            exact ⟨k + 1, r, by simpa using hk, by omega, he, ha⟩
        · rintro ⟨k, r, hk, rfl, he, ha, ht, hc⟩
          cases k with
          | zero =>
            exact ⟨⟨i0, i0 + 3, safe_get_cell row assetIdx,
              safe_get_cell row techIdx, safe_get_cell row aiIdx,
              safe_get_cell row compIdx⟩, Or.inl rfl, by simp⟩
          | succ k =>
            obtain ⟨j, hj, hidx⟩ := (ihx (i0 + 1 + k)).mpr
              ⟨k, r, by simpa using hk, rfl, he, ha, ht, hc⟩
            exact ⟨j, Or.inr hj, by omega⟩
    · rw [if_pos (by simp [hemp])]
      simp only []
      rw [show (∃ j ∈ js, j.idx = i) ↔ _ from ihx i]
      constructor
      · rintro ⟨k, r, hk, rfl, he, ha⟩
        exact ⟨k + 1, r, by simpa using hk, by omega, he, ha⟩
      · rintro ⟨k, r, hk, rfl, he, ha⟩
        cases k with
        | zero =>
          simp only [List.get?_cons_zero, Option.some.injEq] at hk
          subst hk
          exact absurd he hemp
        | succ k =>
          exact ⟨k, r, by simpa using hk, by omega, he, ha⟩

/-- C4: each embedded enrichment step selects row `i` into a job iff the
step's target cell of that row is empty or whitespace-only (a missing or
short row counts as empty) and every required source cell of that row is
non-empty — the required sources being the asset for `generate_ai_data`,
asset and raw data for `ai_source_comparables`, and asset, raw data and
comparable for `extract_final_price`; consequently a row whose target cell
holds a non-whitespace value is never selected (re-running is idempotent on
filled rows). -/
theorem C4_row_filter (rows : List Row) (i : Nat) :
    (∀ (aiIdx : Nat) (assetIdx techIdx : Option Nat),
      (∃ j ∈ (GenAiData.rows_to_process rows aiIdx assetIdx techIdx).1,
          j.idx = i) ↔
        ∃ row, rows.get? i = some row ∧
          is_ai_data_cell_empty row aiIdx = true ∧
          safe_get_cell row assetIdx ≠ "") ∧
    (∀ (compIdx : Nat) (assetIdx techIdx aiIdx : Option Nat),
      (∃ j ∈ (Comparables.rows_to_process rows compIdx assetIdx techIdx
          aiIdx).1, j.idx = i) ↔
        ∃ row, rows.get? i = some row ∧
          is_comparable_cell_empty row compIdx = true ∧
          safe_get_cell row assetIdx ≠ "" ∧ safe_get_cell row techIdx ≠ "") ∧
    (∀ (priceIdx : Nat) (assetIdx techIdx aiIdx compIdx : Option Nat),
      (∃ j ∈ (ExtractPrice.rows_to_process rows priceIdx assetIdx techIdx
          aiIdx compIdx).1, j.idx = i) ↔
        ∃ row, rows.get? i = some row ∧
          is_price_cell_empty row priceIdx = true ∧
          safe_get_cell row assetIdx ≠ "" ∧ safe_get_cell row techIdx ≠ "" ∧
          safe_get_cell row compIdx ≠ "") ∧
    (∀ (aiIdx : Nat) (assetIdx techIdx : Option Nat) (row : Row),
      rows.get? i = some row → is_ai_data_cell_empty row aiIdx = false →
      ¬∃ j ∈ (GenAiData.rows_to_process rows aiIdx assetIdx techIdx).1,
        j.idx = i) ∧
    (∀ (priceIdx : Nat) (assetIdx techIdx aiIdx compIdx : Option Nat)
        (row : Row),
      rows.get? i = some row → is_price_cell_empty row priceIdx = false →
      ¬∃ j ∈ (ExtractPrice.rows_to_process rows priceIdx assetIdx techIdx
          aiIdx compIdx).1, j.idx = i) := by
  have hgen : ∀ (aiIdx : Nat) (assetIdx techIdx : Option Nat),
      (∃ j ∈ (GenAiData.rows_to_process rows aiIdx assetIdx techIdx).1,
          j.idx = i) ↔
        ∃ row, rows.get? i = some row ∧
          is_ai_data_cell_empty row aiIdx = true ∧
          safe_get_cell row assetIdx ≠ "" := by
    intro aiIdx assetIdx techIdx
    rw [GenAiData.rows_to_process, gen_go_mem]
    constructor
    · rintro ⟨k, r, hk, rfl, he, ha⟩
      exact ⟨r, by simpa using hk, he, ha⟩
    · rintro ⟨r, hk, he, ha⟩
      exact ⟨i, r, hk, by omega, he, ha⟩
  have hext : ∀ (priceIdx : Nat) (assetIdx techIdx aiIdx compIdx : Option Nat),
      (∃ j ∈ (ExtractPrice.rows_to_process rows priceIdx assetIdx techIdx
          aiIdx compIdx).1, j.idx = i) ↔
        ∃ row, rows.get? i = some row ∧
          is_price_cell_empty row priceIdx = true ∧
          safe_get_cell row assetIdx ≠ "" ∧ safe_get_cell row techIdx ≠ "" ∧
          safe_get_cell row compIdx ≠ "" := by
    intro priceIdx assetIdx techIdx aiIdx compIdx
    rw [ExtractPrice.rows_to_process, extract_go_mem]
    constructor
    · rintro ⟨k, r, hk, rfl, he, ha⟩
      exact ⟨r, by simpa using hk, he, ha⟩
    · rintro ⟨r, hk, he, ha⟩
      exact ⟨i, r, hk, by omega, he, ha⟩
  refine ⟨hgen, ?_, hext, ?_, ?_⟩
  · intro compIdx assetIdx techIdx aiIdx
    rw [Comparables.rows_to_process, comp_go_mem]
    constructor
    · rintro ⟨k, r, hk, rfl, he, ha⟩
      exact ⟨r, by simpa using hk, he, ha⟩
    · rintro ⟨r, hk, he, ha⟩
      exact ⟨i, r, hk, by omega, he, ha⟩
  · intro aiIdx assetIdx techIdx row hrow hfilled hsel
    obtain ⟨r, hr, he, -⟩ := (hgen aiIdx assetIdx techIdx).mp hsel
    rw [hrow] at hr
    cases hr
    rw [hfilled] at he
    cases he
  · intro priceIdx assetIdx techIdx aiIdx compIdx row hrow hfilled hsel
    obtain ⟨r, hr, he, -⟩ :=
      (hext priceIdx assetIdx techIdx aiIdx compIdx).mp hsel
    rw [hrow] at hr
    cases hr
    rw [hfilled] at he
    cases he

/-- Witness for C4 at a concrete input: of three rows, only the one with an
empty target and a non-empty asset is selected. -/
theorem C4_row_filter_witness :
    ((∃ j ∈ (GenAiData.rows_to_process
        [["a", "t", "filled"], ["a", "t", ""], ["", "t", ""]] 2
        (some 0) (some 1)).1, j.idx = 1) ∧
      ¬∃ j ∈ (GenAiData.rows_to_process
        [["a", "t", "filled"], ["a", "t", ""], ["", "t", ""]] 2
        (some 0) (some 1)).1, j.idx = 0) := by
  constructor
  · exact (C4_row_filter [["a", "t", "filled"], ["a", "t", ""], ["", "t", ""]]
      1).1 2 (some 0) (some 1) |>.mpr ⟨["a", "t", ""], rfl, by decide, by decide⟩
  · exact (C4_row_filter [["a", "t", "filled"], ["a", "t", ""], ["", "t", ""]]
      0).2.2.2.1 2 (some 0) (some 1) ["a", "t", "filled"] rfl (by decide)

/-! ### C1: cancellation before wave 2 -/

theorem gen_wave_dispatched (cfg : RunCfg) (c : Bool) (ai tr sf : Nat) :
    ∀ (b : List GenAiData.Job) (st : GenAiData.RunSt),
    (b.foldl (GenAiData.process_single_row_with_progress cfg c ai tr sf)
        st).dispatched = st.dispatched ++ b.map GenAiData.Job.idx := by
  intro b
  induction b with
  | nil => intro st; simp
  | cons j bs ih =>
    intro st
    rcases hpr : GenAiData.process_single_row cfg c ai st.rows j with ⟨rows', res⟩
    simp only [List.foldl_cons, List.map_cons]
    rw [ih]
    simp only [GenAiData.process_single_row_with_progress, hpr]
    simp

/-- C1: for a run with a session id whose cancellation flag (modelled from
the spec, see `sessionCancelled`) is observed unset before wave 1 and set
before wave 2 of a 3-wave run, the rows carry exactly wave 1's writes, only
wave 1's jobs are dispatched, and the event trace ends with a `cancelled`
event whose counters are wave 1's counters. -/
theorem C1_cancellation_before_wave_2 (rows : List Row)
    (cols : List (String × Option Nat)) (k : String) (cfg : RunCfg)
    (sid : String) (aIdx tIdx ai : Nat)
    (hsid : cfg.sessionId = some sid)
    (hk0 : k ≠ "") (hok : gemini_key_ok (clean_api_key k) = true)
    (hasset : resolveAssetIdx cols = some aIdx)
    (htech : dictGet cols "Raw Trusted Data" = some tIdx)
    (hai : dictGet cols "AI Data" = some ai)
    (jobs : List GenAiData.Job) (sf sm : Nat)
    (hjobs : GenAiData.rows_to_process rows ai (some aIdx) (some tIdx) =
      (jobs, sf, sm))
    (hwaves : (chunks 20 jobs).length = 3)
    (hc0 : cfg.cancelAt 0 = false) (hc1 : cfg.cancelAt 1 = true) :
    ∃ w1 w2 w3, chunks 20 jobs = [w1, w2, w3] ∧
      (GenAiData.generate_ai_data rows cols (some k) cfg).rows =
        (w1.foldl
          (GenAiData.process_single_row_with_progress cfg false ai
            rows.length sf) ⟨rows, 0, 0, [], [], []⟩).rows ∧
      (GenAiData.generate_ai_data rows cols (some k) cfg).dispatched =
        w1.map GenAiData.Job.idx ∧
      (GenAiData.generate_ai_data rows cols (some k) cfg).events =
        (w1.foldl
          (GenAiData.process_single_row_with_progress cfg false ai
            rows.length sf) ⟨rows, 0, 0, [], [], []⟩).events ++
        [GenAiData.cancelledEvent rows.length sf
          (w1.foldl
            (GenAiData.process_single_row_with_progress cfg false ai
              rows.length sf) ⟨rows, 0, 0, [], [], []⟩).succ
          (w1.foldl
            (GenAiData.process_single_row_with_progress cfg false ai
              rows.length sf) ⟨rows, 0, 0, [], [], []⟩).errs] ∧
      ((GenAiData.generate_ai_data rows cols (some k) cfg).events.getLast?.map
        Event.etype) = some "cancelled" := by
  obtain ⟨w1, w2, w3, hw⟩ := List.length_eq_three.mp hwaves
  refine ⟨w1, w2, w3, hw, ?_⟩
  have hcz : sessionCancelled cfg 0 = false := by
    simp [sessionCancelled, hsid, hc0]
  have hco : sessionCancelled cfg 1 = true := by
    simp [sessionCancelled, hsid, hc1]
  have hout : GenAiData.generate_ai_data rows cols (some k) cfg =
      (let stF := GenAiData.process_all_batches cfg ai rows.length sf
        (chunks 20 jobs) 0 ⟨rows, 0, 0, [], [], []⟩
       let agg := GenAiData.aggregate rows.length jobs.length sf sm
        stF.results [] 0 0
       ⟨stF.rows, agg.errorList, agg.stats, stF.events, stF.dispatched⟩) := by
    simp only [GenAiData.generate_ai_data, if_neg hk0, hok, Bool.not_true,
      Bool.false_eq_true, if_false, hasset, htech, hai, hjobs]
  set st1 := w1.foldl
    (GenAiData.process_single_row_with_progress cfg false ai rows.length sf)
    ⟨rows, 0, 0, [], [], []⟩ with hst1
  have hbatches : GenAiData.process_all_batches cfg ai rows.length sf
      (chunks 20 jobs) 0 ⟨rows, 0, 0, [], [], []⟩ =
      { st1 with events := st1.events ++
        [GenAiData.cancelledEvent rows.length sf st1.succ st1.errs] } := by
    rw [hw]
    simp only [GenAiData.process_all_batches, hcz, Bool.false_eq_true,
      if_false, hco, if_true, hst1]
  rw [hout]
  simp only [hbatches]
  refine ⟨trivial, ?_, trivial, ?_⟩
  · have := gen_wave_dispatched cfg false ai rows.length sf w1
      ⟨rows, 0, 0, [], [], []⟩
    simpa [hst1] using this
  · simp [List.getLast?_concat, GenAiData.cancelledEvent]

/-- Witness for C1: a 45-row (3-wave) run whose flag becomes set after
wave 1 dispatches only jobs 0–19 and ends with a `cancelled` event. -/
theorem C1_cancellation_before_wave_2_witness :
    ((GenAiData.generate_ai_data (List.replicate 45 (["A 1", "t", ""] : Row))
        [("YOM > OEM > MODEL", some 0), ("Raw Trusted Data", some 1),
         ("AI Data", some 2)]
        (some "AIzaSyABCDEFG")
        ⟨some "s", fun b => decide (1 ≤ b),
          fun _ => ApiResult.ok "Engine: 50 hp"⟩).events.getLast?.map
      Event.etype = some "cancelled") ∧
    ((GenAiData.generate_ai_data (List.replicate 45 (["A 1", "t", ""] : Row))
        [("YOM > OEM > MODEL", some 0), ("Raw Trusted Data", some 1),
         ("AI Data", some 2)]
        (some "AIzaSyABCDEFG")
        ⟨some "s", fun b => decide (1 ≤ b),
          fun _ => ApiResult.ok "Engine: 50 hp"⟩).dispatched =
      List.range 20) := by
  constructor
  · obtain ⟨w1, w2, w3, hw, hrows, hdisp, hev, hlast⟩ :=
      C1_cancellation_before_wave_2
        (List.replicate 45 (["A 1", "t", ""] : Row))
        [("YOM > OEM > MODEL", some 0), ("Raw Trusted Data", some 1),
         ("AI Data", some 2)]
        "AIzaSyABCDEFG"
        ⟨some "s", fun b => decide (1 ≤ b),
          fun _ => ApiResult.ok "Engine: 50 hp"⟩
        "s" 0 1 2 rfl (by decide) (by decide) (by decide) (by decide)
        (by decide)
        (GenAiData.rows_to_process (List.replicate 45 (["A 1", "t", ""] : Row))
          2 (some 0) (some 1)).1
        (GenAiData.rows_to_process (List.replicate 45 (["A 1", "t", ""] : Row))
          2 (some 0) (some 1)).2.1
        (GenAiData.rows_to_process (List.replicate 45 (["A 1", "t", ""] : Row))
          2 (some 0) (some 1)).2.2
        rfl (by decide) rfl rfl
    exact hlast
  · decide

/-! ### C8: the 45-row end-to-end scenario -/

/-- C8: a run with 45 eligible rows partitions into waves of sizes 20, 20
and 5, dispatches every job exactly once in wave order, and — with every
task succeeding — returns counters `{success: 45, errors: 0, skipped: 0,
total: 45}` while the progress channel receives exactly 45 per-row progress
events plus one final `complete` event. -/
theorem C8_wave_partition_and_counters :
    ((chunks 20 (GenAiData.rows_to_process
        (List.replicate 45 (["A 1", "t", ""] : Row)) 2 (some 0)
        (some 1)).1).map List.length = [20, 20, 5]) ∧
    (GenAiData.process_step_generate
      (List.replicate 45 (["A 1", "t", ""] : Row))
      [("YOM > OEM > MODEL", some 0), ("Raw Trusted Data", some 1),
       ("AI Data", some 2)] (some "AIzaSyABCDEFG")
      ⟨some "s", fun _ => false, fun _ => ApiResult.ok "Engine: 50 hp"⟩
      true).dispatched = List.range 45 ∧
    (GenAiData.process_step_generate
      (List.replicate 45 (["A 1", "t", ""] : Row))
      [("YOM > OEM > MODEL", some 0), ("Raw Trusted Data", some 1),
       ("AI Data", some 2)] (some "AIzaSyABCDEFG")
      ⟨some "s", fun _ => false, fun _ => ApiResult.ok "Engine: 50 hp"⟩
      true).dispatched.Nodup ∧
    (GenAiData.process_step_generate
      (List.replicate 45 (["A 1", "t", ""] : Row))
      [("YOM > OEM > MODEL", some 0), ("Raw Trusted Data", some 1),
       ("AI Data", some 2)] (some "AIzaSyABCDEFG")
      ⟨some "s", fun _ => false, fun _ => ApiResult.ok "Engine: 50 hp"⟩
      true).stats = ⟨45, 45, 45, 0, 0⟩ ∧
    (GenAiData.process_step_generate
      (List.replicate 45 (["A 1", "t", ""] : Row))
      [("YOM > OEM > MODEL", some 0), ("Raw Trusted Data", some 1),
       ("AI Data", some 2)] (some "AIzaSyABCDEFG")
      ⟨some "s", fun _ => false, fun _ => ApiResult.ok "Engine: 50 hp"⟩
      true).errorList = [] ∧
    (GenAiData.process_step_generate
      (List.replicate 45 (["A 1", "t", ""] : Row))
      [("YOM > OEM > MODEL", some 0), ("Raw Trusted Data", some 1),
       ("AI Data", some 2)] (some "AIzaSyABCDEFG")
      ⟨some "s", fun _ => false, fun _ => ApiResult.ok "Engine: 50 hp"⟩
      true).events.map Event.etype =
      List.replicate 45 "progress" ++ ["complete"] ∧
    (GenAiData.process_step_generate
      (List.replicate 45 (["A 1", "t", ""] : Row))
      [("YOM > OEM > MODEL", some 0), ("Raw Trusted Data", some 1),
       ("AI Data", some 2)] (some "AIzaSyABCDEFG")
      ⟨some "s", fun _ => false, fun _ => ApiResult.ok "Engine: 50 hp"⟩
      true).events.getLast? =
      some ⟨"complete", "Generate AI Data", 45, 45, 45, 0, 0, none⟩ := by
  exact ⟨by decide, by decide, by decide, by decide, by decide, by decide,
    by decide⟩

/-! ### C2: critical-error handling -/

/-- The task result a non-cancelled `generate_ai_data` task produces for
job `j` (the pure part of `process_single_row`, independent of the shared
row array). -/
def GenAiData.taskOutcome (cfg : RunCfg) (j : GenAiData.Job) : TaskRes :=
  match cfg.api j.idx with
  | .err code detail => ⟨j.idx, j.rowNum, none, some (code, detail)⟩
  | .ok raw =>
    if raw = "" then ⟨j.idx, j.rowNum, some "", none⟩
    else
      let t := pyStrip raw
      let isExpl := GenAiData.is_explanation t
      if t ≠ "" && !isExpl then
        let cleaned := clean_ai_data_response t
        if pyStrip cleaned ≠ "" then ⟨j.idx, j.rowNum, some cleaned, none⟩
        else ⟨j.idx, j.rowNum, some t, none⟩
      else
        if isExpl then ⟨j.idx, j.rowNum, some t, none⟩
        else ⟨j.idx, j.rowNum, some "", none⟩

/-- Is a task result a critical (400/401/429) failure? -/
def isCriticalRes (t : TaskRes) : Bool :=
  match t.errInfo with
  | some (code, _) => criticalCodes.contains code
  | none => false

/-- `resCritical` lifted to the optional results list. -/
def resCritical (r : Option TaskRes) : Bool :=
  match r with
  | some t => isCriticalRes t
  | none => false

/-- Does an error message come from the critical branch?  (All critical
messages start with `CRITICAL`, row-level ones with `Row`.) -/
def isCriticalErrMsg (s : String) : Bool :=
  hasPrefixL "CRITICAL".data s.data

theorem hasPrefixL_append_of (p : List Char) :
    ∀ (l1 l2 : List Char), hasPrefixL p l1 = true →
      hasPrefixL p (l1 ++ l2) = true := by
  induction p with
  | nil => intro l1 l2 _; rfl
  | cons c cs ih =>
    intro l1 l2 h
    cases l1 with
    | nil => simp [hasPrefixL] at h
    | cons d ds =>
      simp only [hasPrefixL, Bool.and_eq_true] at h ⊢
      exact ⟨h.1, ih ds l2 h.2⟩

theorem isCriticalErrMsg_criticalMsg (code : Option Nat) (detail : String) :
    isCriticalErrMsg (GenAiData.criticalMsg code detail) = true := by
  simp only [GenAiData.criticalMsg, isCriticalErrMsg]
  split
  · rw [String.data_append]
    exact hasPrefixL_append_of _ _ _ (by decide)
  · split
    · rw [String.data_append]
      exact hasPrefixL_append_of _ _ _ (by decide)
    · split
      · rw [String.data_append]
        exact hasPrefixL_append_of _ _ _ (by decide)
      · rw [String.data_append, String.data_append, String.data_append]
        rw [List.append_assoc, List.append_assoc]
        exact hasPrefixL_append_of _ _ _ (by decide)

theorem isCriticalErrMsg_rowErrMsg (rowNum : Nat) (detail : String) :
    isCriticalErrMsg (GenAiData.rowErrMsg rowNum detail) = false := by
  simp only [GenAiData.rowErrMsg, isCriticalErrMsg, String.data_append]
  rfl

theorem gen_aggregate_critical_count (tR tP sf sm : Nat) :
    ∀ (rs : List (Option TaskRes)) (errs : List String) (succ nodata : Nat),
    errs.countP isCriticalErrMsg = 0 →
    ((GenAiData.aggregate tR tP sf sm rs errs succ nodata).errorList.countP
        isCriticalErrMsg = if rs.any resCritical then 1 else 0) ∧
    ((GenAiData.aggregate tR tP sf sm rs errs succ nodata).halted =
      rs.any resCritical) := by
  intro rs
  induction rs with
  | nil =>
    intro errs succ nodata h
    simpa [GenAiData.aggregate] using h
  | cons r rest ih =>
    intro errs succ nodata h
    cases r with
    | none =>
      simpa [GenAiData.aggregate, resCritical] using ih errs succ nodata h
    | some t =>
      rcases ht : t.errInfo with _ | ⟨code, detail⟩
      · rcases htx : t.text with _ | s
        · simpa [GenAiData.aggregate, ht, htx, resCritical, isCriticalRes]
            using ih errs succ (nodata + 1) h
        · by_cases hs : s = ""
          · subst hs
            simpa [GenAiData.aggregate, ht, htx, resCritical, isCriticalRes]
              using ih errs succ (nodata + 1) h
          · simpa [GenAiData.aggregate, ht, htx, hs, resCritical,
              isCriticalRes] using ih errs (succ + 1) nodata h
      · by_cases hcrit : criticalCodes.contains code = true
        · have hmem : code ∈ criticalCodes := by simpa using hcrit
          refine ⟨?_, ?_⟩ <;>
            simp [GenAiData.aggregate, ht, hcrit, hmem, resCritical,
              isCriticalRes, List.countP_append, h,
              isCriticalErrMsg_criticalMsg]
        · have hmem : ¬code ∈ criticalCodes := by simpa using hcrit
          have h' : (errs ++ [GenAiData.rowErrMsg t.rowNum detail]).countP
              isCriticalErrMsg = 0 := by
            rw [List.countP_append]
            simp [h, isCriticalErrMsg_rowErrMsg]
          simpa [GenAiData.aggregate, ht, hcrit, hmem, resCritical,
            isCriticalRes]
            using ih (errs ++ [GenAiData.rowErrMsg t.rowNum detail])
              succ nodata h'

theorem gen_task_snd (cfg : RunCfg) (ai : Nat) (rows : List Row)
    (j : GenAiData.Job) :
    (GenAiData.process_single_row cfg false ai rows j).2 =
      some (GenAiData.taskOutcome cfg j) := by
  simp only [GenAiData.process_single_row, GenAiData.taskOutcome,
    Bool.false_eq_true, if_false]
  cases cfg.api j.idx with
  | err code detail => rfl
  | ok raw =>
    by_cases hraw : raw = ""
    · simp [hraw]
    · simp only [if_neg hraw]
      by_cases hcond : (decide (pyStrip raw ≠ "") &&
          !GenAiData.is_explanation (pyStrip raw)) = true
      · simp only [hcond, if_true]
        by_cases hcl : pyStrip (clean_ai_data_response (pyStrip raw)) ≠ ""
        · simp [hcl]
        · simp [hcl]
      · simp only [hcond, Bool.false_eq_true, if_false]
        by_cases hexp : GenAiData.is_explanation (pyStrip raw) = true
        · simp [hexp]
        · simp [hexp]

theorem gen_wave_results (cfg : RunCfg) (ai tr sf : Nat) :
    ∀ (b : List GenAiData.Job) (st : GenAiData.RunSt),
    (b.foldl (GenAiData.process_single_row_with_progress cfg false ai tr sf)
        st).results =
      st.results ++ b.map (fun j => some (GenAiData.taskOutcome cfg j)) := by
  intro b
  induction b with
  | nil => intro st; simp
  | cons j bs ih =>
    intro st
    rcases hpr : GenAiData.process_single_row cfg false ai st.rows j
      with ⟨rows', res⟩
    have hres : res = some (GenAiData.taskOutcome cfg j) := by
      have := gen_task_snd cfg ai st.rows j
      rw [hpr] at this
      exact this
    simp only [List.foldl_cons, List.map_cons]
    rw [ih]
    simp only [GenAiData.process_single_row_with_progress, hpr, hres]
    simp

theorem gen_batches_trace (cfg : RunCfg) (ai tr sf : Nat)
    (hnc : ∀ b, sessionCancelled cfg b = false) :
    ∀ (bs : List (List GenAiData.Job)) (bidx : Nat) (st : GenAiData.RunSt),
    ((GenAiData.process_all_batches cfg ai tr sf bs bidx st).results =
      st.results ++
        bs.flatten.map (fun j => some (GenAiData.taskOutcome cfg j))) ∧
    ((GenAiData.process_all_batches cfg ai tr sf bs bidx st).dispatched =
      st.dispatched ++ bs.flatten.map GenAiData.Job.idx) := by
  intro bs
  induction bs with
  | nil => intro bidx st; simp [GenAiData.process_all_batches]
  | cons b rest ih =>
    intro bidx st
    simp only [GenAiData.process_all_batches, hnc bidx, Bool.false_eq_true,
      if_false, List.flatten_cons]
    refine ⟨?_, ?_⟩
    · rw [(ih (bidx + 1) _).1, gen_wave_results]
      simp
    · rw [(ih (bidx + 1) _).2, gen_wave_dispatched]
      simp

theorem chunksGo_join (n : Nat) (hn : 1 ≤ n) :
    ∀ (fuel : Nat) (l : List α), l.length ≤ fuel →
      (chunksGo n fuel l).flatten = l := by
  intro fuel
  induction fuel with
  | zero =>
    intro l hl
    have : l = [] := List.length_eq_zero.mp (Nat.le_zero.mp hl)
    subst this
    rfl
  | succ fuel ih =>
    intro l hl
    cases l with
    | nil => rfl
    | cons x xs =>
      simp only [chunksGo, List.flatten_cons]
      rw [ih ((x :: xs).drop n)
        (by rw [List.length_drop]; simp only [List.length_cons]
            simp only [List.length_cons] at hl; omega)]
      exact List.take_append_drop n (x :: xs)

theorem chunks_flatten (l : List α) : (chunks 20 l).flatten = l :=
  chunksGo_join 20 (by omega) l.length l le_rfl

/-- C2 counterexample: in a 21-row (2-wave) run whose very first task fails
with status 401, the scheduler still dispatches all 21 jobs — wave 2
included, whose row write persists — so the run does not terminate "after
that task's wave completes" and further waves ARE dispatched; the critical
error only short-circuits the later result-aggregation loop, which reports
exactly one CRITICAL error. -/
theorem C2_counterexample :
    let rows := List.replicate 21 (["A 1", "t", ""] : Row)
    let cols := [("YOM > OEM > MODEL", some 0), ("Raw Trusted Data", some 1),
      ("AI Data", some 2)]
    let cfg : RunCfg := ⟨none, fun _ => false,
      fun i => if i = 0 then ApiResult.err (some 401) "Unauthorized"
        else ApiResult.ok "Engine: 50 hp"⟩
    let o := GenAiData.generate_ai_data rows cols (some "AIzaSyABCDEFG") cfg
    ((chunks 20 (GenAiData.rows_to_process rows 2 (some 0) (some 1)).1).length
      = 2) ∧
    cfg.api 0 = ApiResult.err (some 401) "Unauthorized" ∧
    o.dispatched = List.range 21 ∧
    (20 ∈ o.dispatched) ∧
    o.rows.getLast? = some ["A 1", "t", "Engine: 50 hp"] ∧
    o.errorList = [GenAiData.criticalMsg (some 401) "Unauthorized"] ∧
    o.errorList.countP isCriticalErrMsg = 1 := by
  exact ⟨by decide, by decide, by decide, by decide, by decide, by decide,
    by decide⟩

/-- C2 (amended): a critical (400/401/429) task failure does not stop wave
dispatch — with a valid configuration and no cancellation, every job of
every wave is dispatched regardless of outcomes; the critical failure is
detected during the result-aggregation loop after all waves have completed,
which then stops and yields an error list containing exactly one CRITICAL
message (and none when no critical outcome exists; any other task exception
is recorded as a row-level error and does not stop aggregation). -/
theorem C2_critical_error_aggregation (rows : List Row)
    (cols : List (String × Option Nat)) (k : String) (cfg : RunCfg)
    (aIdx tIdx ai : Nat)
    (hk0 : k ≠ "") (hok : gemini_key_ok (clean_api_key k) = true)
    (hasset : resolveAssetIdx cols = some aIdx)
    (htech : dictGet cols "Raw Trusted Data" = some tIdx)
    (hai : dictGet cols "AI Data" = some ai)
    (jobs : List GenAiData.Job) (sf sm : Nat)
    (hjobs : GenAiData.rows_to_process rows ai (some aIdx) (some tIdx) =
      (jobs, sf, sm))
    (hnc : ∀ b, sessionCancelled cfg b = false) :
    (GenAiData.generate_ai_data rows cols (some k) cfg).dispatched =
      jobs.map GenAiData.Job.idx ∧
    (GenAiData.generate_ai_data rows cols (some k) cfg).errorList.countP
        isCriticalErrMsg =
      if jobs.any (fun j => isCriticalRes (GenAiData.taskOutcome cfg j))
      then 1 else 0 := by
  have hout : GenAiData.generate_ai_data rows cols (some k) cfg =
      (let stF := GenAiData.process_all_batches cfg ai rows.length sf
        (chunks 20 jobs) 0 ⟨rows, 0, 0, [], [], []⟩
       let agg := GenAiData.aggregate rows.length jobs.length sf sm
        stF.results [] 0 0
       ⟨stF.rows, agg.errorList, agg.stats, stF.events, stF.dispatched⟩) := by
    simp only [GenAiData.generate_ai_data, if_neg hk0, hok, Bool.not_true,
      Bool.false_eq_true, if_false, hasset, htech, hai, hjobs]
  have htrace := gen_batches_trace cfg ai rows.length sf hnc (chunks 20 jobs)
    0 ⟨rows, 0, 0, [], [], []⟩
  rw [hout]
  constructor
  · simp only []
    rw [htrace.2]
    simp [chunks_flatten]
  · simp only []
    rw [htrace.1]
    simp only [List.nil_append, chunks_flatten]
    have hcount := gen_aggregate_critical_count rows.length jobs.length sf sm
      (jobs.map (fun j => some (GenAiData.taskOutcome cfg j))) [] 0 0
      (by simp)
    rw [hcount.1]
    simp [List.any_map, Function.comp, resCritical]

/-- Witness for C2's amended theorem at the counterexample's input. -/
theorem C2_critical_error_aggregation_witness :
    ((GenAiData.generate_ai_data (List.replicate 21 (["A 1", "t", ""] : Row))
        [("YOM > OEM > MODEL", some 0), ("Raw Trusted Data", some 1),
         ("AI Data", some 2)] (some "AIzaSyABCDEFG")
        ⟨none, fun _ => false,
          fun i => if i = 0 then ApiResult.err (some 401) "Unauthorized"
            else ApiResult.ok "Engine: 50 hp"⟩).dispatched =
      (GenAiData.rows_to_process (List.replicate 21 (["A 1", "t", ""] : Row))
        2 (some 0) (some 1)).1.map GenAiData.Job.idx) ∧
    ((GenAiData.generate_ai_data (List.replicate 21 (["A 1", "t", ""] : Row))
        [("YOM > OEM > MODEL", some 0), ("Raw Trusted Data", some 1),
         ("AI Data", some 2)] (some "AIzaSyABCDEFG")
        ⟨none, fun _ => false,
          fun i => if i = 0 then ApiResult.err (some 401) "Unauthorized"
            else ApiResult.ok "Engine: 50 hp"⟩).errorList.countP
        isCriticalErrMsg = 1) := by
  have h := C2_critical_error_aggregation
    (List.replicate 21 (["A 1", "t", ""] : Row))
    [("YOM > OEM > MODEL", some 0), ("Raw Trusted Data", some 1),
     ("AI Data", some 2)] "AIzaSyABCDEFG"
    ⟨none, fun _ => false,
      fun i => if i = 0 then ApiResult.err (some 401) "Unauthorized"
        else ApiResult.ok "Engine: 50 hp"⟩
    0 1 2 (by decide) (by decide) (by decide) (by decide) (by decide)
    (GenAiData.rows_to_process (List.replicate 21 (["A 1", "t", ""] : Row))
      2 (some 0) (some 1)).1
    (GenAiData.rows_to_process (List.replicate 21 (["A 1", "t", ""] : Row))
      2 (some 0) (some 1)).2.1
    (GenAiData.rows_to_process (List.replicate 21 (["A 1", "t", ""] : Row))
      2 (some 0) (some 1)).2.2
    rfl (fun b => rfl)
  refine ⟨h.1, ?_⟩
  rw [h.2]
  decide

/-! ### C3: the stats identity -/

theorem gen_go_counts (aiIdx : Nat) (assetIdx techIdx : Option Nat) :
    ∀ (rows : List Row) (i0 : Nat),
    (GenAiData.rowsToProcessGo aiIdx assetIdx techIdx i0 rows).1.length +
      (GenAiData.rowsToProcessGo aiIdx assetIdx techIdx i0 rows).2.1 +
      (GenAiData.rowsToProcessGo aiIdx assetIdx techIdx i0 rows).2.2 =
    rows.length := by
  intro rows
  induction rows with
  | nil => intro i0; simp [GenAiData.rowsToProcessGo]
  | cons row rest ih =>
    intro i0
    rcases hgo : GenAiData.rowsToProcessGo aiIdx assetIdx techIdx (i0 + 1) rest
      with ⟨js, sf, sm⟩
    have ihx := ih (i0 + 1)
    rw [hgo] at ihx
    simp only [GenAiData.rowsToProcessGo, hgo]
    by_cases hemp : is_ai_data_cell_empty row aiIdx = true
    · by_cases hasset : safe_get_cell row assetIdx = ""
      · rw [if_neg (by simp [hemp]), if_pos hasset]
        simp only [List.length_cons] at *
        omega
      · rw [if_neg (by simp [hemp]), if_neg hasset]
        simp only [List.length_cons] at *
        omega
    · rw [if_pos (by simp [hemp])]
      simp only [List.length_cons] at *
      omega

theorem comp_go_counts (compIdx : Nat) (assetIdx techIdx aiIdx : Option Nat) :
    ∀ (rows : List Row) (i0 : Nat),
    (Comparables.rowsToProcessGo compIdx assetIdx techIdx aiIdx i0
        rows).1.length +
      (Comparables.rowsToProcessGo compIdx assetIdx techIdx aiIdx i0
        rows).2.1 +
      (Comparables.rowsToProcessGo compIdx assetIdx techIdx aiIdx i0
        rows).2.2 =
    rows.length := by
  intro rows
  induction rows with
  | nil => intro i0; simp [Comparables.rowsToProcessGo]
  | cons row rest ih =>
    intro i0
    rcases hgo : Comparables.rowsToProcessGo compIdx assetIdx techIdx aiIdx
      (i0 + 1) rest with ⟨js, sf, sm⟩
    have ihx := ih (i0 + 1)
    rw [hgo] at ihx
    simp only [Comparables.rowsToProcessGo, hgo]
    by_cases hemp : is_comparable_cell_empty row compIdx = true
    · by_cases hreq : (decide (safe_get_cell row assetIdx = "") ||
          decide (safe_get_cell row techIdx = "")) = true
      · rw [if_neg (by simp [hemp]), if_pos hreq]
        simp only [List.length_cons] at *
        omega
      · rw [if_neg (by simp [hemp]), if_neg hreq]
        simp only [List.length_cons] at *
        omega
    · rw [if_pos (by simp [hemp])]
      simp only [List.length_cons] at *
      omega

theorem gen_aggregate_sum (tR tP sf sm : Nat) :
    ∀ (rs : List (Option TaskRes)) (errs : List String) (succ nodata : Nat),
    (∀ t : TaskRes, some t ∈ rs → isCriticalRes t = false) →
    none ∉ rs →
    ((GenAiData.aggregate tR tP sf sm rs errs succ nodata).stats.total = tR) ∧
    ((GenAiData.aggregate tR tP sf sm rs errs succ nodata).stats.success +
      (GenAiData.aggregate tR tP sf sm rs errs succ nodata).stats.errorsCount +
      (GenAiData.aggregate tR tP sf sm rs errs succ nodata).stats.skipped =
      succ + nodata + errs.length + sf + sm + rs.length) := by
  intro rs
  induction rs with
  | nil =>
    intro errs succ nodata _ _
    refine ⟨rfl, ?_⟩
    simp only [GenAiData.aggregate, List.length_nil]
    omega
  | cons r rest ih =>
    intro errs succ nodata hcrit hnone
    cases r with
    | none => exact absurd (List.mem_cons_self _ _) hnone
    | some t =>
      have hcrit' : ∀ t' : TaskRes, some t' ∈ rest → isCriticalRes t' = false :=
        fun t' h => hcrit t' (List.mem_cons_of_mem _ h)
      have hnone' : none ∉ rest := fun h => hnone (List.mem_cons_of_mem _ h)
      rcases ht : t.errInfo with _ | ⟨code, detail⟩
      · rcases htx : t.text with _ | sres
        · have hrec := ih errs succ (nodata + 1) hcrit' hnone'
          have heq : GenAiData.aggregate tR tP sf sm (some t :: rest) errs
              succ nodata =
              GenAiData.aggregate tR tP sf sm rest errs succ (nodata + 1) := by
            simp [GenAiData.aggregate, ht, htx]
          rw [heq]
          refine ⟨hrec.1, ?_⟩
          simp only [List.length_cons]
          omega
        · by_cases hs : sres = ""
          · subst hs
            have hrec := ih errs succ (nodata + 1) hcrit' hnone'
            have heq : GenAiData.aggregate tR tP sf sm (some t :: rest) errs
                succ nodata =
                GenAiData.aggregate tR tP sf sm rest errs succ (nodata + 1) := by
              simp [GenAiData.aggregate, ht, htx]
            rw [heq]
            refine ⟨hrec.1, ?_⟩
            simp only [List.length_cons]
            omega
          · have hrec := ih errs (succ + 1) nodata hcrit' hnone'
            have heq : GenAiData.aggregate tR tP sf sm (some t :: rest) errs
                succ nodata =
                GenAiData.aggregate tR tP sf sm rest errs (succ + 1) nodata := by
              simp [GenAiData.aggregate, ht, htx, hs]
            rw [heq]
            refine ⟨hrec.1, ?_⟩
            simp only [List.length_cons]
            omega
      · have hnc : criticalCodes.contains code = false := by
          have := hcrit t (List.mem_cons_self _ _)
          simpa [isCriticalRes, ht] using this
        have hmem : ¬code ∈ criticalCodes := by simpa using hnc
        have hrec := ih (errs ++ [GenAiData.rowErrMsg t.rowNum detail]) succ
          nodata hcrit' hnone'
        have heq : GenAiData.aggregate tR tP sf sm (some t :: rest) errs
            succ nodata =
            GenAiData.aggregate tR tP sf sm rest
              (errs ++ [GenAiData.rowErrMsg t.rowNum detail]) succ nodata := by
          simp [GenAiData.aggregate, ht, hmem]
        rw [heq]
        refine ⟨hrec.1, ?_⟩
        simp only [List.length_cons, List.length_append, List.length_nil]
          at *
        omega

/-- The task result a non-cancelled `ai_source_comparables` task produces. -/
def Comparables.taskOutcome (cfg : RunCfg) (j : Comparables.Job) : TaskRes :=
  match cfg.api j.idx with
  | .err code detail => ⟨j.idx, j.rowNum, none, some (code, detail)⟩
  | .ok raw =>
    let t := pyStrip raw
    if Comparables.savedResponse t then ⟨j.idx, j.rowNum, some t, none⟩
    else ⟨j.idx, j.rowNum, none, none⟩

theorem comp_task_snd (cfg : RunCfg) (ci : Nat) (rows : List Row)
    (j : Comparables.Job) :
    (Comparables.process_single_row cfg false ci rows j).2 =
      some (Comparables.taskOutcome cfg j) := by
  simp only [Comparables.process_single_row, Comparables.taskOutcome,
    Bool.false_eq_true, if_false]
  cases cfg.api j.idx with
  | err code detail => rfl
  | ok raw =>
    by_cases hs : Comparables.savedResponse (pyStrip raw) = true
    · simp [hs]
    · simp [hs]

theorem comp_wave_results (cfg : RunCfg) (ci tr sf : Nat) :
    ∀ (b : List Comparables.Job) (st : Comparables.RunSt),
    (b.foldl (Comparables.process_single_row_with_progress cfg false ci tr sf)
        st).results =
      st.results ++ b.map (fun j => some (Comparables.taskOutcome cfg j)) := by
  intro b
  induction b with
  | nil => intro st; simp
  | cons j bs ih =>
    intro st
    rcases hpr : Comparables.process_single_row cfg false ci st.rows j
      with ⟨rows', res⟩
    have hres : res = some (Comparables.taskOutcome cfg j) := by
      have := comp_task_snd cfg ci st.rows j
      rw [hpr] at this
      exact this
    simp only [List.foldl_cons, List.map_cons]
    rw [ih]
    simp only [Comparables.process_single_row_with_progress, hpr, hres]
    simp

theorem comp_batches_results (cfg : RunCfg) (ci tr sf : Nat)
    (hnc : ∀ b, sessionCancelled cfg b = false) :
    ∀ (bs : List (List Comparables.Job)) (bidx : Nat)
      (st : Comparables.RunSt),
    (Comparables.process_all_batches cfg ci tr sf bs bidx st).results =
      st.results ++
        bs.flatten.map (fun j => some (Comparables.taskOutcome cfg j)) := by
  intro bs
  induction bs with
  | nil => intro bidx st; simp [Comparables.process_all_batches]
  | cons b rest ih =>
    intro bidx st
    simp only [Comparables.process_all_batches, hnc bidx, Bool.false_eq_true,
      if_false, List.flatten_cons]
    rw [ih (bidx + 1) _, comp_wave_results]
    simp

/-- A result discarded as "no result": no error and no non-empty text. -/
def resDiscarded (r : Option TaskRes) : Bool :=
  match r with
  | some t =>
    t.errInfo.isNone && (match t.text with | some s => s == "" | none => true)
  | none => false

theorem comp_aggregate_sum (tR tP sf sm : Nat) :
    ∀ (rs : List (Option TaskRes)) (errs : List String) (succ : Nat),
    (∀ t : TaskRes, some t ∈ rs → isCriticalRes t = false) →
    none ∉ rs →
    ((Comparables.aggregate tR tP sf sm rs errs succ).stats.total = tR) ∧
    ((Comparables.aggregate tR tP sf sm rs errs succ).stats.success +
      (Comparables.aggregate tR tP sf sm rs errs succ).stats.errorsCount +
      (Comparables.aggregate tR tP sf sm rs errs succ).stats.skipped +
      rs.countP resDiscarded =
      succ + errs.length + sf + sm + rs.length) := by
  intro rs
  induction rs with
  | nil =>
    intro errs succ _ _
    refine ⟨rfl, ?_⟩
    simp only [Comparables.aggregate, List.length_nil, List.countP_nil]
    omega
  | cons r rest ih =>
    intro errs succ hcrit hnone
    cases r with
    | none => exact absurd (List.mem_cons_self _ _) hnone
    | some t =>
      have hcrit' : ∀ t' : TaskRes, some t' ∈ rest → isCriticalRes t' = false :=
        fun t' h => hcrit t' (List.mem_cons_of_mem _ h)
      have hnone' : none ∉ rest := fun h => hnone (List.mem_cons_of_mem _ h)
      rcases ht : t.errInfo with _ | ⟨code, detail⟩
      · rcases htx : t.text with _ | sres
        · have hrec := ih errs succ hcrit' hnone'
          have heq : Comparables.aggregate tR tP sf sm (some t :: rest) errs
              succ = Comparables.aggregate tR tP sf sm rest errs succ := by
            simp [Comparables.aggregate, ht, htx]
          rw [heq]
          refine ⟨hrec.1, ?_⟩
          have hd : resDiscarded (some t) = true := by
            simp [resDiscarded, ht, htx]
          simp [List.length_cons, List.countP_cons, hd]
          omega
        · by_cases hs : sres = ""
          · subst hs
            have hrec := ih errs succ hcrit' hnone'
            have heq : Comparables.aggregate tR tP sf sm (some t :: rest) errs
                succ = Comparables.aggregate tR tP sf sm rest errs succ := by
              simp [Comparables.aggregate, ht, htx]
            rw [heq]
            refine ⟨hrec.1, ?_⟩
            have hd : resDiscarded (some t) = true := by
              simp [resDiscarded, ht, htx]
            simp [List.length_cons, List.countP_cons, hd]
            omega
          · have hrec := ih errs (succ + 1) hcrit' hnone'
            have heq : Comparables.aggregate tR tP sf sm (some t :: rest) errs
                succ = Comparables.aggregate tR tP sf sm rest errs (succ + 1) := by
              simp [Comparables.aggregate, ht, htx, hs]
            rw [heq]
            refine ⟨hrec.1, ?_⟩
            have hd : resDiscarded (some t) = false := by
              simp [resDiscarded, ht, htx, hs]
            simp [List.length_cons, List.countP_cons, hd]
            omega
      · have hncode : criticalCodes.contains code = false := by
          have := hcrit t (List.mem_cons_self _ _)
          simpa [isCriticalRes, ht] using this
        have hmem : ¬code ∈ criticalCodes := by simpa using hncode
        have hrec := ih (errs ++ [Comparables.rowErrMsg t.rowNum detail])
          succ hcrit' hnone'
        have heq : Comparables.aggregate tR tP sf sm (some t :: rest) errs
            succ = Comparables.aggregate tR tP sf sm rest
              (errs ++ [Comparables.rowErrMsg t.rowNum detail]) succ := by
          simp [Comparables.aggregate, ht, hmem]
        rw [heq]
        refine ⟨hrec.1, ?_⟩
        have hd : resDiscarded (some t) = false := by
          simp [resDiscarded, ht]
        simp [List.length_cons, List.countP_cons, hd,
          List.length_append, List.length_nil] at *
        omega

/-- C3 counterexample: an `ai_source_comparables` run over one eligible row
whose response is discarded as "no result" finishes with no critical error
and no cancellation, yet returns stats with `success + errors + skipped = 0`
while `total = 1`. -/
theorem C3_counterexample :
    let o := Comparables.ai_source_comparables [["a", "t", ""]]
      [("YOM > OEM > MODEL", some 0), ("Raw Trusted Data", some 1),
       ("AI Comparable Price", some 2)]
      (some "pplx-123456789")
      ⟨none, fun _ => false,
        fun _ => ApiResult.ok "I cannot find comparable listings for this item"⟩
    o.errorList = [] ∧
    o.stats = some ⟨1, 1, 0, 0, 0⟩ ∧
    ∃ st, o.stats = some st ∧
      st.success + st.errorsCount + st.skipped ≠ st.total := by
  refine ⟨by decide, by decide, ⟨1, 1, 0, 0, 0⟩, by decide, by decide⟩

/-- C3 (amended): for a run that finishes without a critical error and
without cancellation, `generate_ai_data` satisfies
`success + errors + skipped = total` (no-data rows are folded into
`skipped`), while `ai_source_comparables` satisfies it only up to the
responses discarded as "no result", which are counted nowhere:
`success + errors + skipped + discarded = total`. -/
theorem C3_stats_identity :
    (∀ (rows : List Row) (cols : List (String × Option Nat)) (k : String)
        (cfg : RunCfg) (aIdx tIdx ai : Nat) (jobs : List GenAiData.Job)
        (sf sm : Nat),
      k ≠ "" → gemini_key_ok (clean_api_key k) = true →
      resolveAssetIdx cols = some aIdx →
      dictGet cols "Raw Trusted Data" = some tIdx →
      dictGet cols "AI Data" = some ai →
      GenAiData.rows_to_process rows ai (some aIdx) (some tIdx) =
        (jobs, sf, sm) →
      (∀ b, sessionCancelled cfg b = false) →
      (∀ j ∈ jobs, isCriticalRes (GenAiData.taskOutcome cfg j) = false) →
      (GenAiData.generate_ai_data rows cols (some k) cfg).stats.total =
          rows.length ∧
        (GenAiData.generate_ai_data rows cols (some k) cfg).stats.success +
          (GenAiData.generate_ai_data rows cols (some k) cfg).stats.errorsCount +
          (GenAiData.generate_ai_data rows cols (some k) cfg).stats.skipped =
        (GenAiData.generate_ai_data rows cols (some k) cfg).stats.total) ∧
    (∀ (rows : List Row) (cols : List (String × Option Nat)) (k : String)
        (cfg : RunCfg) (aIdx tIdx ci : Nat) (jobs : List Comparables.Job)
        (sf sm : Nat),
      k ≠ "" → perplexity_key_ok (clean_api_key k) = true →
      resolveAssetIdx cols = some aIdx →
      dictGet cols "Raw Trusted Data" = some tIdx →
      dictGet cols "AI Comparable Price" = some ci →
      Comparables.rows_to_process rows ci (some aIdx) (some tIdx)
        (dictGet cols "AI Data") = (jobs, sf, sm) →
      (∀ b, sessionCancelled cfg b = false) →
      (∀ j ∈ jobs, isCriticalRes (Comparables.taskOutcome cfg j) = false) →
      ∃ st : Stats,
        (Comparables.ai_source_comparables rows cols (some k) cfg).stats =
          some st ∧
        st.total = rows.length ∧
        st.success + st.errorsCount + st.skipped +
          jobs.countP
            (fun j => resDiscarded (some (Comparables.taskOutcome cfg j))) =
        st.total) := by
  constructor
  · intro rows cols k cfg aIdx tIdx ai jobs sf sm hk0 hok hasset htech hai
      hjobs hnc hnocrit
    have hout : GenAiData.generate_ai_data rows cols (some k) cfg =
        (let stF := GenAiData.process_all_batches cfg ai rows.length sf
          (chunks 20 jobs) 0 ⟨rows, 0, 0, [], [], []⟩
         let agg := GenAiData.aggregate rows.length jobs.length sf sm
          stF.results [] 0 0
         ⟨stF.rows, agg.errorList, agg.stats, stF.events, stF.dispatched⟩) := by
      simp only [GenAiData.generate_ai_data, if_neg hk0, hok, Bool.not_true,
        Bool.false_eq_true, if_false, hasset, htech, hai, hjobs]
    have htrace := gen_batches_trace cfg ai rows.length sf hnc (chunks 20 jobs)
      0 ⟨rows, 0, 0, [], [], []⟩
    have hsum := gen_aggregate_sum rows.length jobs.length sf sm
      (jobs.map (fun j => some (GenAiData.taskOutcome cfg j))) [] 0 0
      (by
        intro t ht
        rw [List.mem_map] at ht
        obtain ⟨j, hj, hjt⟩ := ht
        cases hjt
        exact hnocrit j hj)
      (by simp)
    have hcounts := gen_go_counts ai (some aIdx) (some tIdx) rows 0
    rw [GenAiData.rows_to_process] at hjobs
    rw [hjobs] at hcounts
    rw [hout]
    simp only []
    rw [htrace.1]
    simp only [List.nil_append, chunks_flatten]
    refine ⟨hsum.1, ?_⟩
    rw [hsum.1]
    have := hsum.2
    simp only [List.length_nil, List.length_map] at this
    simp only [] at hcounts
    omega
  · intro rows cols k cfg aIdx tIdx ci jobs sf sm hk0 hok hasset htech hci
      hjobs hnc hnocrit
    have hout : Comparables.ai_source_comparables rows cols (some k) cfg =
        (let stF := Comparables.process_all_batches cfg ci rows.length sf
          (chunks 20 jobs) 0 ⟨rows, 0, 0, [], [], []⟩
         let agg := Comparables.aggregate rows.length jobs.length sf sm
          stF.results [] 0
         ⟨stF.rows, agg.errorList, some agg.stats, stF.events,
          stF.dispatched⟩) := by
      simp only [Comparables.ai_source_comparables, if_neg hk0, hok,
        Bool.not_true, Bool.false_eq_true, if_false, hasset, htech, hci, hjobs]
    have htrace := comp_batches_results cfg ci rows.length sf hnc
      (chunks 20 jobs) 0 ⟨rows, 0, 0, [], [], []⟩
    have hsum := comp_aggregate_sum rows.length jobs.length sf sm
      (jobs.map (fun j => some (Comparables.taskOutcome cfg j))) [] 0
      (by
        intro t ht
        rw [List.mem_map] at ht
        obtain ⟨j, hj, hjt⟩ := ht
        cases hjt
        exact hnocrit j hj)
      (by simp)
    have hcounts := comp_go_counts ci (some aIdx) (some tIdx)
      (dictGet cols "AI Data") rows 0
    rw [Comparables.rows_to_process] at hjobs
    rw [hjobs] at hcounts
    rw [hout]
    simp only []
    rw [htrace]
    simp only [List.nil_append, chunks_flatten]
    refine ⟨_, rfl, hsum.1, ?_⟩
    rw [hsum.1]
    have h2 := hsum.2
    simp only [List.length_nil, List.length_map, List.countP_map] at h2
    simp only [] at hcounts
    have hcp : (jobs.map (fun j => some (Comparables.taskOutcome cfg j))).countP
        resDiscarded =
        jobs.countP (fun j => resDiscarded (some (Comparables.taskOutcome cfg j))) := by
      rw [List.countP_map]
      rfl
    rw [← hcp]
    have h2' := hsum.2
    simp only [List.length_nil, List.length_map] at h2'
    omega

theorem C3_stats_identity_witness :
    ((GenAiData.generate_ai_data [["a", "t", ""]]
        [("YOM > OEM > MODEL", some 0), ("Raw Trusted Data", some 1),
         ("AI Data", some 2)] (some "AIzaSyABCDEFG")
        ⟨none, fun _ => false,
          fun _ => ApiResult.ok "Engine: 50 hp"⟩).stats.total = 1 ∧
      (GenAiData.generate_ai_data [["a", "t", ""]]
        [("YOM > OEM > MODEL", some 0), ("Raw Trusted Data", some 1),
         ("AI Data", some 2)] (some "AIzaSyABCDEFG")
        ⟨none, fun _ => false,
          fun _ => ApiResult.ok "Engine: 50 hp"⟩).stats.success +
      (GenAiData.generate_ai_data [["a", "t", ""]]
        [("YOM > OEM > MODEL", some 0), ("Raw Trusted Data", some 1),
         ("AI Data", some 2)] (some "AIzaSyABCDEFG")
        ⟨none, fun _ => false,
          fun _ => ApiResult.ok "Engine: 50 hp"⟩).stats.errorsCount +
      (GenAiData.generate_ai_data [["a", "t", ""]]
        [("YOM > OEM > MODEL", some 0), ("Raw Trusted Data", some 1),
         ("AI Data", some 2)] (some "AIzaSyABCDEFG")
        ⟨none, fun _ => false,
          fun _ => ApiResult.ok "Engine: 50 hp"⟩).stats.skipped =
      (GenAiData.generate_ai_data [["a", "t", ""]]
        [("YOM > OEM > MODEL", some 0), ("Raw Trusted Data", some 1),
         ("AI Data", some 2)] (some "AIzaSyABCDEFG")
        ⟨none, fun _ => false,
          fun _ => ApiResult.ok "Engine: 50 hp"⟩).stats.total) ∧
    (∃ st : Stats,
      (Comparables.ai_source_comparables [["a", "t", ""]]
        [("YOM > OEM > MODEL", some 0), ("Raw Trusted Data", some 1),
         ("AI Comparable Price", some 2)] (some "pplx-123456789")
        ⟨none, fun _ => false,
          fun _ => ApiResult.ok
            "I cannot find comparable listings for this item"⟩).stats =
        some st ∧
      st.total = 1 ∧
      st.success + st.errorsCount + st.skipped +
        (Comparables.rows_to_process [["a", "t", ""]] 2 (some 0) (some 1)
          (dictGet
            [("YOM > OEM > MODEL", some 0), ("Raw Trusted Data", some 1),
             ("AI Comparable Price", some 2)] "AI Data")).1.countP
          (fun j => resDiscarded (some (Comparables.taskOutcome
            ⟨none, fun _ => false,
              fun _ => ApiResult.ok
                "I cannot find comparable listings for this item"⟩ j))) =
        st.total) := by
  constructor
  · exact C3_stats_identity.1 [["a", "t", ""]]
      [("YOM > OEM > MODEL", some 0), ("Raw Trusted Data", some 1),
       ("AI Data", some 2)] "AIzaSyABCDEFG"
      ⟨none, fun _ => false, fun _ => ApiResult.ok "Engine: 50 hp"⟩
      0 1 2
      (GenAiData.rows_to_process [["a", "t", ""]] 2 (some 0) (some 1)).1
      (GenAiData.rows_to_process [["a", "t", ""]] 2 (some 0) (some 1)).2.1
      (GenAiData.rows_to_process [["a", "t", ""]] 2 (some 0) (some 1)).2.2
      (by decide) (by decide) (by decide) (by decide) (by decide) rfl
      (fun b => rfl) (by decide)
  · exact C3_stats_identity.2 [["a", "t", ""]]
      [("YOM > OEM > MODEL", some 0), ("Raw Trusted Data", some 1),
       ("AI Comparable Price", some 2)] "pplx-123456789"
      ⟨none, fun _ => false,
        fun _ => ApiResult.ok
          "I cannot find comparable listings for this item"⟩
      0 1 2
      (Comparables.rows_to_process [["a", "t", ""]] 2 (some 0) (some 1)
        (dictGet
          [("YOM > OEM > MODEL", some 0), ("Raw Trusted Data", some 1),
           ("AI Comparable Price", some 2)] "AI Data")).1
      (Comparables.rows_to_process [["a", "t", ""]] 2 (some 0) (some 1)
        (dictGet
          [("YOM > OEM > MODEL", some 0), ("Raw Trusted Data", some 1),
           ("AI Comparable Price", some 2)] "AI Data")).2.1
      (Comparables.rows_to_process [["a", "t", ""]] 2 (some 0) (some 1)
        (dictGet
          [("YOM > OEM > MODEL", some 0), ("Raw Trusted Data", some 1),
           ("AI Comparable Price", some 2)] "AI Data")).2.2
      (by decide) (by decide) (by decide) (by decide) (by decide) rfl
      (fun b => rfl) (by decide)

/-! ### C10: restricted idempotence of `clean_ai_data_response` -/

/-- Head character is whitespace. -/
def headWsB : List Char → Bool
  | [] => false
  | c :: _ => isPyWs c

/-- Head character is a newline. -/
def headNlB : List Char → Bool
  | [] => false
  | c :: _ => c = '\n'

/-- No two adjacent whitespace characters. -/
def noWsAdj : List Char → Bool
  | [] => true
  | c :: cs => !(isPyWs c && headWsB cs) && noWsAdj cs

/-- No two adjacent newlines. -/
def noNlAdj : List Char → Bool
  | [] => true
  | c :: cs => !(decide (c = '\n') && headNlB cs) && noNlAdj cs

/-- Every whitespace character is a plain space. -/
def wsSpace (l : List Char) : Bool := l.all (fun c => !isPyWs c || c = ' ')

/-- A character that can begin a match of one of the `clean_ai_data_response`
substitution patterns: `[`, `(`, `*`, or the letter `s` (case-insensitive,
for `See all`). -/
def trigFreeC (c : Char) : Bool :=
  !(c = '[' || c = '(' || c = '*' || c.toLower = 's')

/-- No substitution pattern of `clean_ai_data_response` can match anywhere. -/
def trigFree (l : List Char) : Bool := l.all trigFreeC

theorem subRF_nomatch (m : List Char → Option (List Char × List Char)) :
    ∀ (fuel : Nat) (l : List Char),
    (∀ c cs, (c :: cs) <:+ l → m (c :: cs) = none) → subRF m fuel l = l := by
  intro fuel
  induction fuel with
  | zero => intro l _; rfl
  | succ n ih =>
    intro l hl
    cases l with
    | nil => rfl
    | cons c cs =>
      rw [subRF, hl c cs (List.suffix_refl _)]
      exact congrArg (c :: ·) (ih cs (fun d ds hsuf =>
        hl d ds (hsuf.trans (List.suffix_cons c cs))))

theorem subAll_nomatch (m : List Char → Option (List Char × List Char))
    (l : List Char) (h : ∀ c cs, (c :: cs) <:+ l → m (c :: cs) = none) :
    subAll m l = l :=
  subRF_nomatch m l.length l h

theorem trigFreeC_of_mem (l : List Char) (c : Char) (h : trigFree l = true)
    (hm : c ∈ l) : trigFreeC c = true := by
  simp only [trigFree, List.all_eq_true] at h
  exact h c hm

theorem trigFreeC_spec (c : Char) (h : trigFreeC c = true) :
    ¬c = '[' ∧ ¬c = '(' ∧ ¬c = '*' ∧ ¬c.toLower = 's' := by
  have h2 : (c = '[' ∨ c = '(' ∨ c = '*' ∨ c.toLower = 's') → False := by
    intro hor
    rcases hor with h1 | h1 | h1 | h1 <;> simp [trigFreeC, h1] at h
  exact ⟨fun h1 => h2 (Or.inl h1), fun h1 => h2 (Or.inr (Or.inl h1)),
    fun h1 => h2 (Or.inr (Or.inr (Or.inl h1))),
    fun h1 => h2 (Or.inr (Or.inr (Or.inr h1)))⟩

theorem mBracket_trig (c : Char) (cs : List Char) (h : trigFreeC c = true) :
    mBracket (c :: cs) = none := by
  rw [mBracket, if_neg]
  simp [(trigFreeC_spec c h).1]

theorem mParenLit_trig (lit : List Char) (c : Char) (cs : List Char)
    (h : trigFreeC c = true) : mParenLit lit (c :: cs) = none := by
  rw [mParenLit, if_neg]
  simp [(trigFreeC_spec c h).2.1]

theorem mParenLitEnd_trig (lit e : List Char) (c : Char) (cs : List Char)
    (h : trigFreeC c = true) : mParenLitEnd lit e (c :: cs) = none := by
  rw [mParenLitEnd, if_neg]
  simp [(trigFreeC_spec c h).2.1]

theorem mParenInner_trig (pat : List Char) (c : Char) (cs : List Char)
    (h : trigFreeC c = true) : mParenInner pat (c :: cs) = none := by
  rw [mParenInner]
  rw [if_neg]
  simp [(trigFreeC_spec c h).2.1]

theorem mLitEnd_seeall_trig (e : List Char) (c : Char) (cs : List Char)
    (h : trigFreeC c = true) : mLitEnd "see all".data e (c :: cs) = none := by
  have hd : "see all".data = 's' :: "ee all".data := rfl
  rw [mLitEnd, hd, if_neg]
  simp only [hasPrefixCI, Bool.and_eq_true, beq_iff_eq, not_and]
  intro hs
  exact absurd hs.symm (trigFreeC_spec c h).2.2.2

theorem subAll_trigFree (m : List Char → Option (List Char × List Char))
    (l : List Char) (hL : trigFree l = true)
    (hm : ∀ c cs, trigFreeC c = true → m (c :: cs) = none) : subAll m l = l :=
  subAll_nomatch m l (fun c cs hsuf =>
    hm c cs (trigFreeC_of_mem l c hL (hsuf.subset (List.mem_cons_self c cs))))

theorem wsSpace_collapseGo : ∀ (b : Bool) (l : List Char),
    wsSpace (collapseWsGo b l) = true := by
  intro b l
  induction l generalizing b with
  | nil => rfl
  | cons c cs ih =>
    rw [collapseWsGo]
    by_cases hw : isPyWs c = true
    · rw [if_pos hw]
      cases b with
      | true => simpa using ih true
      | false =>
        simp only [Bool.false_eq_true, if_false, wsSpace, List.all_cons,
          Bool.and_eq_true]
        refine ⟨by decide, ?_⟩
        simpa [wsSpace] using ih true
    · rw [if_neg (by simp [hw])]
      simp only [wsSpace, List.all_cons, Bool.and_eq_true]
      refine ⟨by simp [hw], ?_⟩
      simpa [wsSpace] using ih false

theorem headWsB_collapseGo_true : ∀ l : List Char,
    headWsB (collapseWsGo true l) = false := by
  intro l
  induction l with
  | nil => rfl
  | cons c cs ih =>
    rw [collapseWsGo]
    by_cases hw : isPyWs c = true
    · rw [if_pos hw, if_pos rfl]
      exact ih
    · rw [if_neg (by simp [hw])]
      simpa [headWsB] using hw

theorem noWsAdj_collapseGo : ∀ (b : Bool) (l : List Char),
    noWsAdj (collapseWsGo b l) = true := by
  intro b l
  induction l generalizing b with
  | nil => rfl
  | cons c cs ih =>
    rw [collapseWsGo]
    by_cases hw : isPyWs c = true
    · rw [if_pos hw]
      cases b with
      | true => exact ih true
      | false =>
        simp only [Bool.false_eq_true, if_false, noWsAdj, Bool.and_eq_true]
        refine ⟨?_, ih true⟩
        simp [headWsB_collapseGo_true cs]
    · rw [if_neg (by simp [hw])]
      simp only [noWsAdj, Bool.and_eq_true]
      refine ⟨by simp [hw], ih false⟩

theorem trigFree_collapseGo : ∀ (b : Bool) (l : List Char),
    trigFree l = true → trigFree (collapseWsGo b l) = true := by
  intro b l
  induction l generalizing b with
  | nil => intro _; rfl
  | cons c cs ih =>
    intro h
    simp only [trigFree, List.all_cons, Bool.and_eq_true] at h
    rw [collapseWsGo]
    by_cases hw : isPyWs c = true
    · rw [if_pos hw]
      cases b with
      | true => exact ih true h.2
      | false =>
        simp only [Bool.false_eq_true, if_false, trigFree, List.all_cons,
          Bool.and_eq_true]
        exact ⟨by decide, by simpa [trigFree] using ih true h.2⟩
    · rw [if_neg (by simp [hw])]
      simp only [trigFree, List.all_cons, Bool.and_eq_true]
      exact ⟨h.1, by simpa [trigFree] using ih false h.2⟩

theorem mem_pyStripL (l : List Char) (c : Char) (h : c ∈ pyStripL l) :
    c ∈ l := by
  rw [pyStripL] at h
  rw [List.mem_reverse] at h
  have h2 := (List.dropWhile_suffix isPyWs).subset h
  rw [List.mem_reverse] at h2
  exact (List.dropWhile_suffix isPyWs).subset h2

theorem trigFree_pyStripL (l : List Char) (h : trigFree l = true) :
    trigFree (pyStripL l) = true := by
  simp only [trigFree, List.all_eq_true] at h ⊢
  exact fun c hc => h c (mem_pyStripL l c hc)

theorem wsSpace_pyStripL (l : List Char) (h : wsSpace l = true) :
    wsSpace (pyStripL l) = true := by
  simp only [wsSpace, List.all_eq_true] at h ⊢
  exact fun c hc => h c (mem_pyStripL l c hc)

theorem noWsAdj_tail (c : Char) (cs : List Char)
    (h : noWsAdj (c :: cs) = true) : noWsAdj cs = true := by
  rw [noWsAdj, Bool.and_eq_true] at h
  exact h.2

theorem noWsAdj_suffix (l1 l2 : List Char) (hs : l1 <:+ l2)
    (h : noWsAdj l2 = true) : noWsAdj l1 = true := by
  obtain ⟨t, ht⟩ := hs
  induction t generalizing l2 with
  | nil => rw [← ht] at h; simpa using h
  | cons d ds ih =>
    cases ht
    exact ih (ds ++ l1) (noWsAdj_tail _ _ h) rfl

theorem noWsAdj_prefix (l1 t : List Char)
    (h : noWsAdj (l1 ++ t) = true) : noWsAdj l1 = true := by
  induction l1 with
  | nil => rfl
  | cons c cs ih =>
    rw [List.cons_append, noWsAdj, Bool.and_eq_true] at h
    rw [noWsAdj, Bool.and_eq_true]
    refine ⟨?_, ih h.2⟩
    cases cs with
    | nil => simp [headWsB]
    | cons d ds =>
      simpa [headWsB] using h.1

theorem headWsB_dropWhile (l : List Char) :
    headWsB (l.dropWhile isPyWs) = false := by
  induction l with
  | nil => rfl
  | cons c cs ih =>
    rw [List.dropWhile_cons]
    by_cases hw : isPyWs c = true
    · rw [if_pos hw]; exact ih
    · rw [if_neg (by simp [hw])]
      simpa [headWsB] using hw

theorem pyStripL_prefix_drop (l : List Char) :
    pyStripL l <+: l.dropWhile isPyWs := by
  obtain ⟨t, ht⟩ := List.dropWhile_suffix (l := (l.dropWhile isPyWs).reverse)
    isPyWs
  refine ⟨t.reverse, ?_⟩
  rw [pyStripL]
  rw [← List.reverse_append, ht, List.reverse_reverse]

theorem noWsAdj_pyStripL (l : List Char) (h : noWsAdj l = true) :
    noWsAdj (pyStripL l) = true := by
  obtain ⟨t, ht⟩ := pyStripL_prefix_drop l
  have hdrop : noWsAdj (l.dropWhile isPyWs) = true :=
    noWsAdj_suffix _ _ (List.dropWhile_suffix isPyWs) h
  rw [← ht] at hdrop
  exact noWsAdj_prefix _ _ hdrop

theorem headWsB_pyStripL (l : List Char) :
    headWsB (pyStripL l) = false := by
  obtain ⟨t, ht⟩ := pyStripL_prefix_drop l
  have hd := headWsB_dropWhile l
  rw [← ht] at hd
  cases hp : pyStripL l with
  | nil => rfl
  | cons c cs =>
    rw [hp] at hd
    simpa [headWsB] using hd

theorem lastWsB_pyStripL (l : List Char) :
    headWsB (pyStripL l).reverse = false := by
  rw [pyStripL, List.reverse_reverse]
  exact headWsB_dropWhile _

theorem dropWhile_headWsB (l : List Char) (h : headWsB l = false) :
    l.dropWhile isPyWs = l := by
  cases l with
  | nil => rfl
  | cons c cs =>
    rw [List.dropWhile_cons, if_neg]
    simpa [headWsB] using h

theorem pyStripL_fixed (l : List Char) (h1 : headWsB l = false)
    (h2 : headWsB l.reverse = false) : pyStripL l = l := by
  rw [pyStripL, dropWhile_headWsB l h1, dropWhile_headWsB l.reverse h2,
    List.reverse_reverse]

theorem noWsAdj_head_pair (c : Char) (cs : List Char)
    (h : noWsAdj (c :: cs) = true) (hw : isPyWs c = true) :
    headWsB cs = false := by
  rw [noWsAdj, Bool.and_eq_true] at h
  have := h.1
  rw [hw] at this
  simpa using this

theorem collapseGo_fixed : ∀ l : List Char, wsSpace l = true →
    noWsAdj l = true →
    (collapseWsGo false l = l ∧
      (headWsB l = false → collapseWsGo true l = l)) := by
  intro l
  induction l with
  | nil => intro _ _; exact ⟨rfl, fun _ => rfl⟩
  | cons c cs ih =>
    intro hws hadj
    simp only [wsSpace, List.all_cons, Bool.and_eq_true] at hws
    have ihr := ih (by simpa [wsSpace] using hws.2) (noWsAdj_tail _ _ hadj)
    by_cases hw : isPyWs c = true
    · have hsp : c = ' ' := by
        have := hws.1
        rw [hw] at this
        simpa using this
      have hcs : headWsB cs = false := noWsAdj_head_pair c cs hadj hw
      constructor
      · rw [collapseWsGo, if_pos hw]
        simp only [Bool.false_eq_true, if_false]
        rw [ihr.2 hcs, hsp]
      · intro hh
        rw [headWsB] at hh
        rw [hw] at hh
        exact absurd hh (by simp)
    · constructor
      · rw [collapseWsGo, if_neg (by simp [hw]), ihr.1]
      · intro _
        rw [collapseWsGo, if_neg (by simp [hw]), ihr.1]

theorem collapseSpGo_fixed : ∀ l : List Char, noWsAdj l = true →
    (collapseSpGo false l = l ∧
      (headWsB l = false → collapseSpGo true l = l)) := by
  intro l
  induction l with
  | nil => intro _; exact ⟨rfl, fun _ => rfl⟩
  | cons c cs ih =>
    intro hadj
    have ihr := ih (noWsAdj_tail _ _ hadj)
    by_cases hsp : c = ' '
    · have hw : isPyWs c = true := by rw [hsp]; decide
      have hcs : headWsB cs = false := noWsAdj_head_pair c cs hadj hw
      constructor
      · rw [collapseSpGo, if_pos (by simp [hsp])]
        simp only [Bool.false_eq_true, if_false]
        rw [ihr.2 hcs, hsp]
      · intro hh
        rw [headWsB, hw] at hh
        exact absurd hh (by simp)
    · constructor
      · rw [collapseSpGo, if_neg (by simp [hsp]), ihr.1]
      · intro _
        rw [collapseSpGo, if_neg (by simp [hsp]), ihr.1]

theorem star12Then_not_star (k : List Char → Bool) :
    ∀ l : List Char, headWsB l = false → trigFree l = true →
    star12Then k l = false := by
  intro l _ htf
  cases l with
  | nil => rfl
  | cons c cs =>
    have hc : trigFreeC c = true :=
      trigFreeC_of_mem _ c htf (List.mem_cons_self c cs)
    have hcstar : ¬c = '*' := (trigFreeC_spec c hc).2.2.1
    rw [star12Then.eq_def]
    split
    · rename_i r heq
      injection heq with h1 _
      exact absurd h1 hcstar
    · rfl

theorem trigFree_dropWhile (l : List Char) (h : trigFree l = true) :
    trigFree (l.dropWhile isPyWs) = true := by
  simp only [trigFree, List.all_eq_true] at h ⊢
  exact fun c hc => h c ((List.dropWhile_suffix isPyWs).subset hc)

theorem headerMatch_trigFree (l : List Char) (h : trigFree l = true) :
    headerMatch l = false := by
  rw [headerMatch]
  exact star12Then_not_star _ _ (headWsB_dropWhile l) (trigFree_dropWhile l h)

theorem processLine_trigFree (line : List Char) (h : trigFree line = true) :
    processLine line =
      (if pyStripL line = [] then none
       else
         if (pyStripL (collapseWs line)).length < 3 then none
         else if keepLine (pyStripL (collapseWs line)) then
           some (pyStripL (collapseWs line))
         else none) := by
  have h1 : subAll mBracket line = line :=
    subAll_trigFree _ _ h (fun c cs hc => mBracket_trig c cs hc)
  have h2 : subAll (mParenLit "see all".data) line = line :=
    subAll_trigFree _ _ h (fun c cs hc => mParenLit_trig _ c cs hc)
  have h3 : subAll (mParenLitEnd "see all".data "for sale)".data) line = line :=
    subAll_trigFree _ _ h (fun c cs hc => mParenLitEnd_trig _ _ c cs hc)
  have h4 : subAll (mParenLit "view".data) line = line :=
    subAll_trigFree _ _ h (fun c cs hc => mParenLit_trig _ c cs hc)
  have h5 : subAll (mParenInner "for sale".data) line = line :=
    subAll_trigFree _ _ h (fun c cs hc => mParenInner_trig _ c cs hc)
  have h6 : subAll (mParenInner "equipment for sale".data) line = line :=
    subAll_trigFree _ _ h (fun c cs hc => mParenInner_trig _ c cs hc)
  have h7 : subAll (mLitEnd "see all".data "for sale".data) line = line :=
    subAll_trigFree _ _ h (fun c cs hc => mLitEnd_seeall_trig _ c cs hc)
  have h8 : subAll (mLitEnd "see all".data "equipment".data) line = line :=
    subAll_trigFree _ _ h (fun c cs hc => mLitEnd_seeall_trig _ c cs hc)
  have hm : headerMatch line = false := headerMatch_trigFree line h
  rw [processLine]
  simp only [h1, h2, h3, h4, h5, h6, h7, h8, hm, Bool.false_and,
    Bool.false_eq_true, if_false]

theorem splitOnNl_noNl (l : List Char)
    (h : l.all (fun c => !decide (c = '\n')) = true) : splitOnNl l = [l] := by
  induction l with
  | nil => rfl
  | cons c cs ih =>
    simp only [List.all_cons, Bool.and_eq_true, Bool.not_eq_true',
      decide_eq_false_iff_not] at h
    rw [splitOnNl, if_neg h.1, ih (by
      simp only [List.all_eq_true]
      intro x hx
      simp only [Bool.not_eq_true', decide_eq_false_iff_not]
      have := h.2
      simp only [List.all_eq_true] at this
      have h2 := this x hx
      simpa using h2)]

theorem splitOnNl_append (l X : List Char)
    (h : l.all (fun c => !decide (c = '\n')) = true) :
    splitOnNl (l ++ '\n' :: X) = l :: splitOnNl X := by
  induction l with
  | nil => rw [List.nil_append, splitOnNl, if_pos rfl]
  | cons c cs ih =>
    simp only [List.all_cons, Bool.and_eq_true, Bool.not_eq_true',
      decide_eq_false_iff_not] at h
    rw [List.cons_append, splitOnNl, if_neg h.1,
      ih (by simp only [List.all_eq_true]
             intro x hx
             have := h.2
             simp only [List.all_eq_true] at this
             exact this x hx)]

theorem splitOnNl_joinNl : ∀ ls : List (List Char), ls ≠ [] →
    (∀ p ∈ ls, p.all (fun c => !decide (c = '\n')) = true) →
    splitOnNl (joinNl ls) = ls := by
  intro ls
  induction ls with
  | nil => intro h _; exact absurd rfl h
  | cons p t ih =>
    intro _ hall
    cases t with
    | nil =>
      rw [joinNl]
      exact splitOnNl_noNl p (hall p (List.mem_cons_self p _))
    | cons q r =>
      rw [joinNl, splitOnNl_append p _ (hall p (List.mem_cons_self p _))]
      rw [ih (List.cons_ne_nil q r) (fun x hx => hall x (List.mem_cons_of_mem p hx))]
      exact fun hh => List.noConfusion hh

theorem filterMap_id_of_some {α : Type} (f : α → Option α) :
    ∀ l : List α, (∀ x ∈ l, f x = some x) → l.filterMap f = l := by
  intro l
  induction l with
  | nil => intro _; rfl
  | cons x xs ih =>
    intro h
    rw [List.filterMap_cons, h x (List.mem_cons_self x xs),
      ih (fun y hy => h y (List.mem_cons_of_mem x hy))]

theorem noNl_of_wsSpace (l : List Char) (h : wsSpace l = true) :
    l.all (fun c => !decide (c = '\n')) = true := by
  simp only [wsSpace, List.all_eq_true] at h ⊢
  intro c hc
  have h2 := h c hc
  simp only [Bool.or_eq_true, Bool.not_eq_true', decide_eq_true_eq] at h2
  simp only [Bool.not_eq_true', decide_eq_false_iff_not]
  intro hnl
  rcases h2 with h3 | h3
  · rw [hnl] at h3
    exact absurd h3 (by decide)
  · rw [hnl] at h3
    exact absurd h3 (by decide)

theorem noNlAdj_tail (c : Char) (cs : List Char)
    (h : noNlAdj (c :: cs) = true) : noNlAdj cs = true := by
  rw [noNlAdj, Bool.and_eq_true] at h
  exact h.2

theorem noNlAdj_suffix (l1 l2 : List Char) (hs : l1 <:+ l2)
    (h : noNlAdj l2 = true) : noNlAdj l1 = true := by
  obtain ⟨t, ht⟩ := hs
  induction t generalizing l2 with
  | nil => rw [← ht] at h; simpa using h
  | cons d ds ih =>
    cases ht
    exact ih (ds ++ l1) (noNlAdj_tail _ _ h) rfl

theorem mTripleNl_noAdj (c : Char) (cs : List Char)
    (h : noNlAdj (c :: cs) = true) : mTripleNl (c :: cs) = none := by
  rw [mTripleNl.eq_def]
  split
  · rename_i rest heq
    injection heq with h1 h2
    rw [h1, h2] at h
    rw [noNlAdj, Bool.and_eq_true] at h
    have := h.1
    rw [headNlB] at this
    simp at this
  · rfl

theorem noNlAdj_noNl (l : List Char)
    (h : l.all (fun c => !decide (c = '\n')) = true) : noNlAdj l = true := by
  induction l with
  | nil => rfl
  | cons c cs ih =>
    simp only [List.all_cons, Bool.and_eq_true] at h
    rw [noNlAdj, Bool.and_eq_true]
    refine ⟨?_, ih h.2⟩
    have := h.1
    simp only [Bool.not_eq_true', decide_eq_false_iff_not] at this
    simp [this]

theorem noNlAdj_sep (l X : List Char)
    (hl : l.all (fun c => !decide (c = '\n')) = true)
    (hX : noNlAdj X = true) (hh : headNlB X = false) :
    noNlAdj (l ++ '\n' :: X) = true := by
  induction l with
  | nil =>
    rw [List.nil_append, noNlAdj, Bool.and_eq_true]
    exact ⟨by simp [hh], hX⟩
  | cons c cs ih =>
    simp only [List.all_cons, Bool.and_eq_true] at hl
    rw [List.cons_append, noNlAdj, Bool.and_eq_true]
    refine ⟨?_, ih hl.2⟩
    have := hl.1
    simp only [Bool.not_eq_true', decide_eq_false_iff_not] at this
    simp [this]

theorem headNlB_joinNl (p : List Char) (t : List (List Char)) (hp : p ≠ [])
    (hnl : p.all (fun c => !decide (c = '\n')) = true) :
    headNlB (joinNl (p :: t)) = false := by
  cases p with
  | nil => exact absurd rfl hp
  | cons c cs =>
    simp only [List.all_cons, Bool.and_eq_true] at hnl
    have hc : ¬c = '\n' := by
      have := hnl.1
      simpa using this
    cases t with
    | nil => rw [joinNl]; simpa [headNlB] using hc
    | cons q r =>
      rw [joinNl, List.cons_append]
      · simpa [headNlB] using hc
      · exact fun hh => List.noConfusion hh

theorem noNlAdj_joinNl : ∀ ls : List (List Char),
    (∀ p ∈ ls, p ≠ [] ∧ p.all (fun c => !decide (c = '\n')) = true) →
    noNlAdj (joinNl ls) = true := by
  intro ls
  induction ls with
  | nil => intro _; rfl
  | cons p t ih =>
    intro h
    cases t with
    | nil =>
      rw [joinNl]
      exact noNlAdj_noNl p (h p (List.mem_cons_self p _)).2
    | cons q r =>
      rw [joinNl]
      · refine noNlAdj_sep p _ (h p (List.mem_cons_self p _)).2
          (ih (fun x hx => h x (List.mem_cons_of_mem p hx))) ?_
        exact headNlB_joinNl q r (h q (by simp)).1 (h q (by simp)).2
      · exact fun hh => List.noConfusion hh

theorem joinNl_ne_nil (p : List Char) (t : List (List Char)) (hp : p ≠ []) :
    joinNl (p :: t) ≠ [] := by
  cases t with
  | nil => rw [joinNl]; exact hp
  | cons q r =>
    rw [joinNl]
    · cases p with
      | nil => simp
      | cons c cs => simp
    · exact fun hh => List.noConfusion hh

theorem headWsB_append_left (a b : List Char) (ha : a ≠ []) :
    headWsB (a ++ b) = headWsB a := by
  cases a with
  | nil => exact absurd rfl ha
  | cons c cs => rfl

theorem headWsB_joinNl (p : List Char) (t : List (List Char)) (hp : p ≠ [])
    (hh : headWsB p = false) : headWsB (joinNl (p :: t)) = false := by
  cases t with
  | nil => rw [joinNl]; exact hh
  | cons q r =>
    rw [joinNl, headWsB_append_left p _ hp]
    · exact hh
    · exact fun hh2 => List.noConfusion hh2

theorem lastWsB_joinNl : ∀ (ls : List (List Char)),
    (∀ p ∈ ls, p ≠ [] ∧ headWsB p.reverse = false) →
    headWsB (joinNl ls).reverse = false := by
  intro ls
  induction ls with
  | nil => intro _; rfl
  | cons p t ih =>
    intro h
    cases t with
    | nil => rw [joinNl]; exact (h p (List.mem_cons_self p _)).2
    | cons q r =>
      rw [joinNl]
      · rw [List.reverse_append, List.reverse_cons, List.append_assoc]
        rw [headWsB_append_left]
        · exact ih (fun x hx => h x (List.mem_cons_of_mem p hx))
        · have hq := (h q (by simp)).1
          have := joinNl_ne_nil q r hq
          simpa using this
      · exact fun hh => List.noConfusion hh

theorem splitOnNl_ne_nil : ∀ l : List Char, splitOnNl l ≠ [] := by
  intro l
  induction l with
  | nil => simp [splitOnNl]
  | cons c cs ih =>
    rw [splitOnNl]
    by_cases h : c = '\n'
    · rw [if_pos h]; simp
    · rw [if_neg h]
      cases hs : splitOnNl cs with
      | nil => simp
      | cons a t => simp

theorem mem_splitOnNl : ∀ (t p : List Char), p ∈ splitOnNl t →
    ∀ c ∈ p, c ∈ t := by
  intro t
  induction t with
  | nil =>
    intro p hp c hc
    simp only [splitOnNl, List.mem_singleton] at hp
    rw [hp] at hc
    exact absurd hc (List.not_mem_nil c)
  | cons d ds ih =>
    intro p hp c hc
    rw [splitOnNl] at hp
    by_cases h : d = '\n'
    · rw [if_pos h] at hp
      rcases List.mem_cons.mp hp with h1 | h1
      · rw [h1] at hc
        exact absurd hc (List.not_mem_nil c)
      · exact List.mem_cons_of_mem d (ih p h1 c hc)
    · rw [if_neg h] at hp
      cases hs : splitOnNl ds with
      | nil => exact absurd hs (splitOnNl_ne_nil ds)
      | cons a t' =>
        rw [hs] at hp
        rcases List.mem_cons.mp hp with h1 | h1
        · rw [h1] at hc
          rcases List.mem_cons.mp hc with h2 | h2
          · rw [h2]; exact List.mem_cons_self d ds
          · refine List.mem_cons_of_mem d (ih a ?_ c h2)
            rw [hs]
            exact List.mem_cons_self a t'
        · refine List.mem_cons_of_mem d (ih p ?_ c hc)
          rw [hs]
          exact List.mem_cons_of_mem a h1

theorem processLine_out (line r : List Char) (ht : trigFree line = true)
    (h : processLine line = some r) :
    trigFree r = true ∧ wsSpace r = true ∧ noWsAdj r = true ∧
    headWsB r = false ∧ headWsB r.reverse = false ∧
    3 ≤ r.length ∧ keepLine r = true := by
  rw [processLine_trigFree line ht] at h
  by_cases h0 : pyStripL line = []
  · rw [if_pos h0] at h
    exact absurd h (by simp)
  · rw [if_neg h0] at h
    by_cases h1 : (pyStripL (collapseWs line)).length < 3
    · rw [if_pos h1] at h
      exact absurd h (by simp)
    · rw [if_neg h1] at h
      by_cases h2 : keepLine (pyStripL (collapseWs line)) = true
      · rw [if_pos h2] at h
        injection h with hr
        rw [← hr]
        refine ⟨trigFree_pyStripL _ ?_, wsSpace_pyStripL _ ?_,
          noWsAdj_pyStripL _ ?_, headWsB_pyStripL _, lastWsB_pyStripL _,
          by omega, h2⟩
        · rw [collapseWs]
          exact trigFree_collapseGo false line ht
        · rw [collapseWs]
          exact wsSpace_collapseGo false line
        · rw [collapseWs]
          exact noWsAdj_collapseGo false line
      · rw [if_neg h2] at h
        exact absurd h (by simp)

theorem processLine_fixed (r : List Char) (ht : trigFree r = true)
    (hws : wsSpace r = true) (hadj : noWsAdj r = true)
    (hh : headWsB r = false) (hl : headWsB r.reverse = false)
    (hlen : 3 ≤ r.length) (hk : keepLine r = true) :
    processLine r = some r := by
  have hfix : pyStripL r = r := pyStripL_fixed r hh hl
  have hcol : collapseWs r = r := by
    rw [collapseWs]
    exact (collapseGo_fixed r hws hadj).1
  have hne : ¬(r = []) := by
    intro hE
    rw [hE] at hlen
    simp at hlen
  rw [processLine_trigFree r ht, hcol, hfix, if_neg hne,
    if_neg (by omega), if_pos hk]

theorem finalLine_fixed (r : List Char) (hadj : noWsAdj r = true)
    (hh : headWsB r = false) (hl : headWsB r.reverse = false)
    (hne : r ≠ []) : finalLine r = some r := by
  have hfix : pyStripL r = r := pyStripL_fixed r hh hl
  have hsp : collapseSp r = r := by
    rw [collapseSp]
    exact (collapseSpGo_fixed r hadj).1
  rw [finalLine]
  simp only [hfix, hsp]
  rw [if_neg hne]

theorem phase2_joinNl (kept : List (List Char)) (hne : kept ≠ [])
    (h : ∀ r ∈ kept, wsSpace r = true ∧ noWsAdj r = true ∧
      headWsB r = false ∧ headWsB r.reverse = false ∧ 3 ≤ r.length) :
    pyStripL (subAll mTripleNl
      (joinNl ((splitOnNl (joinNl kept)).filterMap finalLine))) =
    joinNl kept := by
  have hnl : ∀ p ∈ kept, p.all (fun c => !decide (c = '\n')) = true :=
    fun p hp => noNl_of_wsSpace p (h p hp).1
  have hpne : ∀ p ∈ kept, p ≠ [] := by
    intro p hp hE
    have := (h p hp).2.2.2.2
    rw [hE] at this
    simp at this
  have hsplit : splitOnNl (joinNl kept) = kept :=
    splitOnNl_joinNl kept hne hnl
  have hfm : kept.filterMap finalLine = kept :=
    filterMap_id_of_some _ kept (fun r hr =>
      finalLine_fixed r (h r hr).2.1 (h r hr).2.2.1 (h r hr).2.2.2.1
        (hpne r hr))
  rw [hsplit, hfm]
  have hadjnl : noNlAdj (joinNl kept) = true :=
    noNlAdj_joinNl kept (fun p hp => ⟨hpne p hp, hnl p hp⟩)
  have hsub : subAll mTripleNl (joinNl kept) = joinNl kept :=
    subAll_nomatch _ _ (fun c cs hsuf =>
      mTripleNl_noAdj c cs (noNlAdj_suffix _ _ hsuf hadjnl))
  rw [hsub]
  cases kept with
  | nil => exact absurd rfl hne
  | cons p t =>
    refine pyStripL_fixed _ ?_ ?_
    · exact headWsB_joinNl p t (hpne p (List.mem_cons_self p t))
        (h p (List.mem_cons_self p t)).2.2.1
    · exact lastWsB_joinNl (p :: t)
        (fun q hq => ⟨hpne q hq, (h q hq).2.2.2.1⟩)

theorem cleanCore_idem_trigFree (t : List Char) (ht : trigFree t = true) :
    cleanCore (cleanCore t) = cleanCore t := by
  by_cases ht0 : t = []
  · rw [ht0]
    decide
  · have hprops : ∀ r ∈ (splitOnNl t).filterMap processLine,
        trigFree r = true ∧ wsSpace r = true ∧ noWsAdj r = true ∧
        headWsB r = false ∧ headWsB r.reverse = false ∧
        3 ≤ r.length ∧ keepLine r = true := by
      intro r hr
      rw [List.mem_filterMap] at hr
      obtain ⟨line, hline, hpl⟩ := hr
      have htl : trigFree line = true := by
        simp only [trigFree, List.all_eq_true] at ht ⊢
        exact fun c hc => ht c (mem_splitOnNl t line hline c hc)
      exact processLine_out line r htl hpl
    have hclean : cleanCore t =
        pyStripL (subAll mTripleNl
          (joinNl ((splitOnNl
            (joinNl ((splitOnNl t).filterMap processLine))).filterMap
            finalLine))) := by
      rw [cleanCore, if_neg ht0]
    cases hk : (splitOnNl t).filterMap processLine with
    | nil =>
      have hz : cleanCore t = [] := by
        rw [hclean, hk]
        rfl
      rw [hz]
      decide
    | cons p kt =>
      have hkept : cleanCore t = joinNl (p :: kt) := by
        rw [hclean, hk]
        exact phase2_joinNl (p :: kt) (List.cons_ne_nil p kt)
          (fun r hr => by
            have := hprops r (hk ▸ hr)
            exact ⟨this.2.1, this.2.2.1, this.2.2.2.1, this.2.2.2.2.1,
              this.2.2.2.2.2.1⟩)
      have hprops2 : ∀ r ∈ p :: kt,
          trigFree r = true ∧ wsSpace r = true ∧ noWsAdj r = true ∧
          headWsB r = false ∧ headWsB r.reverse = false ∧
          3 ≤ r.length ∧ keepLine r = true :=
        fun r hr => hprops r (hk ▸ hr)
      have hpne : p ≠ [] := by
        intro hE
        have := (hprops2 p (List.mem_cons_self p kt)).2.2.2.2.2.1
        rw [hE] at this
        simp at this
      have hnl : ∀ q ∈ p :: kt, q.all (fun c => !decide (c = '\n')) = true :=
        fun q hq => noNl_of_wsSpace q (hprops2 q hq).2.1
      have hjne : joinNl (p :: kt) ≠ [] := joinNl_ne_nil p kt hpne
      have hsplit2 : splitOnNl (joinNl (p :: kt)) = p :: kt :=
        splitOnNl_joinNl (p :: kt) (List.cons_ne_nil p kt) hnl
      have hfm2 : (p :: kt).filterMap processLine = p :: kt :=
        filterMap_id_of_some _ (p :: kt) (fun r hr => by
          have hp := hprops2 r hr
          exact processLine_fixed r hp.1 hp.2.1 hp.2.2.1 hp.2.2.2.1
            hp.2.2.2.2.1 hp.2.2.2.2.2.1 hp.2.2.2.2.2.2)
      rw [hkept, cleanCore, if_neg hjne, hsplit2, hfm2]
      exact phase2_joinNl (p :: kt) (List.cons_ne_nil p kt)
        (fun r hr => by
          have := hprops2 r hr
          exact ⟨this.2.1, this.2.2.1, this.2.2.2.1, this.2.2.2.2.1,
            this.2.2.2.2.2.1⟩)

/-- C10 counterexample: `clean_ai_data_response` is not idempotent.  On
`"(See (See all x) all: 123 y)"` the first pass removes only the inner
`(See all x)` parenthetical, leaving `"(See all: 123 y)"`, which a second
pass removes entirely. -/
theorem C10_counterexample :
    clean_ai_data_response
        (clean_ai_data_response "(See (See all x) all: 123 y)") ≠
      clean_ai_data_response "(See (See all x) all: 123 y)" ∧
    clean_ai_data_response "(See (See all x) all: 123 y)" =
      "(See all: 123 y)" ∧
    clean_ai_data_response "(See all: 123 y)" = "" :=
  ⟨by decide, by decide, by decide⟩

/-- C10 (amended): `clean_ai_data_response` is idempotent on every input in
which no substitution pattern can match, i.e. containing no `[`, no `(`,
no `*` and no letter `s`/`S` (the start of `See all`); re-running the
cleaner on its own output is then the identity. -/
theorem C10_clean_idempotent (s : String) (h : trigFree s.data = true) :
    clean_ai_data_response (clean_ai_data_response s) =
      clean_ai_data_response s :=
  congrArg (fun l => (⟨l⟩ : String)) (cleanCore_idem_trigFree s.data h)

theorem C10_clean_idempotent_witness :
    trigFree "- Engine: 50 hp".data = true ∧
    clean_ai_data_response (clean_ai_data_response "- Engine: 50 hp") =
      clean_ai_data_response "- Engine: 50 hp" :=
  ⟨by decide, C10_clean_idempotent "- Engine: 50 hp" (by decide)⟩
